import Mathlib

/-!
# Verification of the targetprocess-cli capture / redact / replay harness

This file is a shallow embedding of the fixture subsystem of the
targetprocess CLI (`internal/testutil`: `capture.go`, `redact.go`,
`simulation.go`).  Byte strings are modeled as Lean `String`s (lists of
unicode scalar values); Go maps whose iteration order is irrelevant to the
observable result are modeled as association lists; the package-level
mutable redaction counters are threaded as an explicit state value; Go's
`encoding/json` is modeled by an executable parser and renderer defined
below, matching the behavior `testutil` relies on (value parsing with
last-duplicate-wins objects, string escaping with HTML escaping as in
`json.Marshal`, sorted object keys when a decoded `map` is re-marshaled).

All definitions are executable; theorems about the claims of the
specification follow after the definitions.
-/

namespace TP

/-! ## String utilities mirroring the Go standard library -/

/-- The whitespace set of `bytes.TrimSpace` / `unicode.IsSpace` over the
Latin-1 range (the rare higher Unicode space runes of category Zs are
omitted; no payload the theorems touch contains them). -/
def isSpaceChar (c : Char) : Bool :=
  c = ' ' || c = '\t' || c = '\n' || c = '\u000B' || c = '\u000C' || c = '\r' ||
    c = '\u0085' || c = ' '

/-- Leading-whitespace strip (the part of `bytes.TrimSpace` that the sniffing
in `capture.go` observes: only the first non-space byte is inspected). -/
def dropLeadingSpace : List Char → List Char
  | [] => []
  | c :: rest => if isSpaceChar c then dropLeadingSpace rest else c :: rest

/-- `pat` occurs as a contiguous substring of `s` (model of `strings.Contains`). -/
def hasSub (s pat : List Char) : Bool :=
  match s with
  | [] => pat.isEmpty
  | _ :: rest => pat.isPrefixOf s || hasSub rest pat

/-- `strings.Contains s pat`. -/
def strContains (s pat : String) : Bool := hasSub s.data pat.data

/-- Core of `strings.ReplaceAll` for a non-empty pattern `p :: ps`:
left-to-right scan, non-overlapping replacement, continuing after each
replacement (exactly the scan of Go's `strings.Replace(s, old, new, -1)`). -/
def replaceAllNE (p : Char) (ps rep : List Char) : Nat → List Char → List Char
  | 0, s => s
  | _ + 1, [] => []
  | fuel + 1, c :: rest =>
    if (p :: ps).isPrefixOf (c :: rest) then
      rep ++ replaceAllNE p ps rep fuel (rest.drop ps.length)
    else
      c :: replaceAllNE p ps rep fuel rest

/-- `strings.ReplaceAll`.  For an empty pattern Go inserts the replacement
before every character and at the end; `testutil` never calls it that way
(`replaceDomain` guards `RealDomain == ""`), but the model is faithful. -/
def replaceAllStr (s old new : String) : String :=
  match old.data with
  | [] => ⟨new.data ++ s.data.flatMap (fun c => [c] ++ new.data)⟩
  | p :: ps => ⟨replaceAllNE p ps new.data (s.data.length + 1) s.data⟩

/-- Decimal digit character, as produced by `fmt.Sprintf("%d", n)`. -/
def digitChar (d : Nat) : Char := Char.ofNat (48 + d)

/-- Decimal digit list of a natural number, most significant first (the
fuel strictly exceeds the number, which bounds the division chain). -/
def natDigitsF : Nat → Nat → List Char
  | 0, _ => []
  | fuel + 1, n =>
    if n < 10 then [digitChar n]
    else natDigitsF fuel (n / 10) ++ [digitChar (n % 10)]

/-- Decimal rendering of a natural number (`fmt.Sprintf("%d", n)`). -/
def natToString (n : Nat) : String := ⟨natDigitsF (n + 1) n⟩

/-- Value of a digit character. -/
def digitVal (c : Char) : Nat := c.toNat - 48

/-- Evaluate a digit list back to the number it denotes. -/
def digitsVal (ds : List Char) : Nat :=
  ds.foldl (fun a c => a * 10 + digitVal c) 0

/-! ## The email pattern of `redact.go`

`emailRegex = [a-zA-Z0-9._%+-]+@[a-zA-Z0-9.-]+\.[a-zA-Z]{2,}`, applied with
`ReplaceAllString`.  Go's regexp engine finds successive leftmost matches
with Perl-style greedy/backtracking extent; for this pattern that extent is
computed directly below. -/

def isLocalChar (c : Char) : Bool :=
  c.isAlpha || c.isDigit || c = '.' || c = '_' || c = '%' || c = '+' || c = '-'

def isDomChar (c : Char) : Bool :=
  c.isAlpha || c.isDigit || c = '.' || c = '-'

/-- Length of the longest prefix of `s` whose characters satisfy `p`. -/
def runLen (p : Char → Bool) (s : List Char) : Nat := (s.takeWhile p).length

/-- Extent of `[a-zA-Z0-9.-]+\.[a-zA-Z]{2,}` at the start of the maximal
domain-character run `run`: the greedy engine picks the largest split point
`i ≥ 1` with `run[i] = '.'` followed by at least two letters, then the
trailing letter run is taken maximally. -/
def domainTailMatch (run : List Char) : Option Nat :=
  let ok := fun i : Nat =>
    decide (1 ≤ i) &&
      (run.drop i).headD ' ' == '.' &&
      decide (2 ≤ runLen Char.isAlpha (run.drop (i + 1)))
  match ((List.range run.length).filter ok).max? with
  | some i => some (i + 1 + runLen Char.isAlpha (run.drop (i + 1)))
  | none => none

/-- Extent of a whole email match starting at the head of `s`, if any. -/
def matchEmailAt (s : List Char) : Option Nat :=
  if runLen isLocalChar s = 0 then none
  else
    match s.drop (runLen isLocalChar s) with
    | '@' :: rest =>
      match domainTailMatch (rest.takeWhile isDomChar) with
      | some t => some (runLen isLocalChar s + 1 + t)
      | none => none
    | _ => none

/-- `emailRegex.ReplaceAllString s "testuser@example.com"`, scanning left to
right and continuing after each replaced match (a match is never empty — its
local part has length at least one — so the fuel chosen by
`emailReplaceAll` is never exhausted). -/
def emailReplaceCore (rep : List Char) : Nat → List Char → List Char
  | 0, s => s
  | _ + 1, [] => []
  | fuel + 1, c :: rest =>
    match matchEmailAt (c :: rest) with
    | some n => rep ++ emailReplaceCore rep fuel ((c :: rest).drop n)
    | none => c :: emailReplaceCore rep fuel rest

def emailReplaceAll (s : String) : String :=
  ⟨emailReplaceCore "testuser@example.com".data (s.data.length + 1) s.data⟩

/-! ## A model of `encoding/json`

`testutil` stores response bodies as `json.RawMessage` byte strings and
round-trips them through `json.Unmarshal` / `json.Marshal`.  The executable
parser and renderer below model exactly the behavior the package relies on:

* `parseJson` models `json.Unmarshal(data, &v)` for `v any` (and decoding
  into `string` is `parseJson` followed by expecting a string value):
  one JSON value, surrounding whitespace allowed, nothing trailing;
  duplicated object keys resolve last-wins as for a Go map.  JSON numbers
  are kept as their lexemes (`Json.num`), since no redaction rule inspects
  or rewrites numbers; Go would decode them to `float64` and re-render.
* `renderJson` (with fuel exceeding the tree depth, which the input's
  length bounds) models `json.Marshal` of a decoded `any` value: compact
  layout, object keys sorted (Go sorts map keys bytewise, which on UTF-8
  agrees with code-point order), strings escaped with Go's HTML escaping.
-/

/-- The JSON value tree produced by `json.Unmarshal` into `any`. -/
inductive Json where
  | null
  | bool (b : Bool)
  | num (lexeme : String)
  | str (s : String)
  | arr (elems : List Json)
  | obj (fields : List (String × Json))

/-- Lowercase hex digit, as in Go's `encoding/json` `hex` table. -/
def hexDigitChar (n : Nat) : Char :=
  if n < 10 then Char.ofNat (48 + n) else Char.ofNat (87 + n)

/-- Escape one character the way Go's `json.Marshal` string encoder does
(HTML escaping on, the default used by `json.Marshal`). -/
def quoteChar (c : Char) : List Char :=
  if c = '"' then ['\\', '"']
  else if c = '\\' then ['\\', '\\']
  else if c = '\n' then ['\\', 'n']
  else if c = '\r' then ['\\', 'r']
  else if c = '\t' then ['\\', 't']
  else if c.toNat < 0x20 then
    ['\\', 'u', '0', '0', hexDigitChar (c.toNat / 16), hexDigitChar (c.toNat % 16)]
  else if c = '<' || c = '>' || c = '&' then
    ['\\', 'u', '0', '0', hexDigitChar (c.toNat / 16), hexDigitChar (c.toNat % 16)]
  else if c.toNat = 0x2028 || c.toNat = 0x2029 then
    ['\\', 'u', '2', '0', '2', hexDigitChar (c.toNat % 16)]
  else [c]

def quoteChars : List Char → List Char
  | [] => []
  | c :: rest => quoteChar c ++ quoteChars rest

/-- `json.Marshal` of a Go string: the quoted, escaped JSON string literal. -/
def goQuote (s : String) : String := ⟨'"' :: (quoteChars s.data ++ ['"'])⟩

def unhex (c : Char) : Option Nat :=
  if '0' ≤ c ∧ c ≤ '9' then some (c.toNat - 48)
  else if 'a' ≤ c ∧ c ≤ 'f' then some (c.toNat - 87)
  else if 'A' ≤ c ∧ c ≤ 'F' then some (c.toNat - 55)
  else none

def hex4 (a b c d : Char) : Option Nat :=
  match unhex a, unhex b, unhex c, unhex d with
  | some w, some x, some y, some z => some (w * 4096 + x * 256 + y * 16 + z)
  | _, _, _, _ => none

def consFst (c : Char) : Option (List Char × List Char) → Option (List Char × List Char)
  | some (cs, rest) => some (c :: cs, rest)
  | none => none

/-- The single-character escapes of a JSON string body (`\\"`, `\\\\`, `\\/`,
`\\b`, `\\f`, `\\n`, `\\r`, `\\t`). -/
def simpleEscape (e : Char) : Option Char :=
  if e = '"' then some '"'
  else if e = '\\' then some '\\'
  else if e = '/' then some '/'
  else if e = 'b' then some '\u0008'
  else if e = 'f' then some '\u000C'
  else if e = 'n' then some '\n'
  else if e = 'r' then some '\r'
  else if e = 't' then some '\t'
  else none

mutual

/-- Scan a JSON string body after its opening quote, returning the decoded
content and the input after the closing quote.  Escapes, `\uXXXX` decoding,
surrogate-pair combination and the replacement character for lone
surrogates follow Go's `unquote`; raw control characters are rejected as by
Go's scanner.  Fuel consumption never exceeds characters consumed, so the
fuel chosen by `scanString` is never exhausted. -/
def scanStringF : Nat → List Char → Option (List Char × List Char)
  | 0, _ => none
  | _ + 1, [] => none
  | fuel + 1, c :: rest =>
    if c = '"' then some ([], rest)
    else if c = '\\' then scanEscape fuel rest
    else if c.toNat < 0x20 then none
    else consFst c (scanStringF fuel rest)

/-- Scan the remainder of an escape sequence (after the backslash). -/
def scanEscape : Nat → List Char → Option (List Char × List Char)
  | 0, _ => none
  | _ + 1, [] => none
  | fuel + 1, 'u' :: a :: b :: c :: d :: r =>
    match hex4 a b c d with
    | none => none
    | some n =>
      if 0xD800 ≤ n ∧ n < 0xDC00 then scanSurrogate n fuel r
      else if 0xDC00 ≤ n ∧ n < 0xE000 then consFst '�' (scanStringF fuel r)
      else consFst (Char.ofNat n) (scanStringF fuel r)
  | fuel + 1, e :: r =>
    match simpleEscape e with
    | some ch => consFst ch (scanStringF fuel r)
    | none => none

/-- After a high surrogate `n`: combine with a following low-surrogate
escape, or emit the replacement character and rescan. -/
def scanSurrogate (n : Nat) : Nat → List Char → Option (List Char × List Char)
  | 0, _ => none
  | fuel + 1, '\\' :: 'u' :: a :: b :: c :: d :: r2 =>
    match hex4 a b c d with
    | some m =>
      if 0xDC00 ≤ m ∧ m < 0xE000 then
        consFst (Char.ofNat (0x10000 + (n - 0xD800) * 0x400 + (m - 0xDC00)))
          (scanStringF fuel r2)
      else consFst '�' (scanStringF fuel ('\\' :: 'u' :: a :: b :: c :: d :: r2))
    | none => consFst '�' (scanStringF fuel ('\\' :: 'u' :: a :: b :: c :: d :: r2))
  | fuel + 1, other => consFst '�' (scanStringF fuel other)

end

/-- Scan wrapper: fuel consumption never exceeds characters consumed, so
this fuel is never exhausted. -/
def scanString (s : List Char) : Option (List Char × List Char) :=
  scanStringF (s.length + 1) s

/-- Whitespace skipped by the JSON scanner (space, tab, CR, LF). -/
def isJsonWs (c : Char) : Bool := c = ' ' || c = '\t' || c = '\n' || c = '\r'

def skipWs : List Char → List Char
  | [] => []
  | c :: rest => if isJsonWs c then skipWs rest else c :: rest

/-- Optional fraction part `('.' digit+)?` of a JSON number. -/
def scanFrac (s : List Char) : Option (List Char × List Char) :=
  match s with
  | '.' :: r =>
    let ds := r.takeWhile Char.isDigit
    if ds.isEmpty then none else some ('.' :: ds, r.drop ds.length)
  | _ => some ([], s)

/-- Optional exponent part `([eE] [+-]? digit+)?` of a JSON number. -/
def scanExp (s : List Char) : Option (List Char × List Char) :=
  match s with
  | e :: r =>
    if e = 'e' || e = 'E' then
      let sgnr : List Char × List Char :=
        match r with
        | '+' :: rr => (['+'], rr)
        | '-' :: rr => (['-'], rr)
        | _ => ([], r)
      let ds := sgnr.2.takeWhile Char.isDigit
      if ds.isEmpty then none else some (e :: sgnr.1 ++ ds, sgnr.2.drop ds.length)
    else some ([], s)
  | [] => some ([], [])

/-- Recognize a JSON number lexeme `-? (0 | [1-9][0-9]*) frac? exp?`. -/
def scanNumber (s : List Char) : Option (List Char × List Char) :=
  let negs : List Char × List Char :=
    match s with
    | '-' :: r => (['-'], r)
    | _ => ([], s)
  match negs.2 with
  | [] => none
  | c :: r =>
    if c = '0' then
      match scanFrac r with
      | none => none
      | some (f, r2) =>
        match scanExp r2 with
        | none => none
        | some (e, r3) => some (negs.1 ++ '0' :: (f ++ e), r3)
    else if c.isDigit then
      let ds := negs.2.takeWhile Char.isDigit
      match scanFrac (negs.2.drop ds.length) with
      | none => none
      | some (f, r2) =>
        match scanExp r2 with
        | none => none
        | some (e, r3) => some (negs.1 ++ ds ++ f ++ e, r3)
    else none

/-- In-place update of an association list, as assignment to a Go map key. -/
def updAssoc {α : Type} : List (String × α) → String → α → List (String × α)
  | [], k, v => [(k, v)]
  | (k', v') :: rest, k, v =>
    if k' = k then (k, v) :: rest else (k', v') :: updAssoc rest k v

/-- Lookup in an association list, as indexing a Go map (`ok` form). -/
def getAssoc? {α : Type} (m : List (String × α)) (k : String) : Option α :=
  (m.find? (fun kv => kv.1 == k)).map Prod.snd

/-- Duplicate object keys resolve to the last value, as when `json.Unmarshal`
assigns each parsed member into a `map[string]any`. -/
def dedupLastWins (fs : List (String × Json)) : List (String × Json) :=
  fs.foldl (fun m kv => updAssoc m kv.1 kv.2) []

mutual

/-- Parse one JSON value; returns the value and the unconsumed input.  The
fuel argument strictly exceeds any recursion depth reached for the fuel
chosen by `parseJson`. -/
def parseValue : Nat → List Char → Option (Json × List Char)
  | 0, _ => none
  | fuel + 1, s =>
    match skipWs s with
    | [] => none
    | c :: rest =>
      if c = '"' then
        match scanString rest with
        | some (cs, r) => some (.str ⟨cs⟩, r)
        | none => none
      else if c = '{' then
        match skipWs rest with
        | '}' :: r => some (.obj [], r)
        | r2 => parseMembers fuel r2 []
      else if c = '[' then
        match skipWs rest with
        | ']' :: r => some (.arr [], r)
        | r2 => parseElems fuel r2 []
      else if c = 't' then
        match rest with
        | 'r' :: 'u' :: 'e' :: r => some (.bool true, r)
        | _ => none
      else if c = 'f' then
        match rest with
        | 'a' :: 'l' :: 's' :: 'e' :: r => some (.bool false, r)
        | _ => none
      else if c = 'n' then
        match rest with
        | 'u' :: 'l' :: 'l' :: r => some (.null, r)
        | _ => none
      else
        match scanNumber (c :: rest) with
        | some (lex, r) => some (.num ⟨lex⟩, r)
        | none => none

/-- Parse the members of an object after `{` (first member not yet read). -/
def parseMembers : Nat → List Char → List (String × Json) → Option (Json × List Char)
  | 0, _, _ => none
  | fuel + 1, s, acc =>
    match skipWs s with
    | '"' :: rest =>
      match scanString rest with
      | some (kcs, r1) =>
        match skipWs r1 with
        | ':' :: r2 =>
          match parseValue fuel r2 with
          | some (v, r3) =>
            match skipWs r3 with
            | ',' :: r4 => parseMembers fuel r4 (acc ++ [(⟨kcs⟩, v)])
            | '}' :: r4 => some (.obj (dedupLastWins (acc ++ [(⟨kcs⟩, v)])), r4)
            | _ => none
          | none => none
        | _ => none
      | none => none
    | _ => none

/-- Parse the elements of an array after `[` (first element not yet read). -/
def parseElems : Nat → List Char → List Json → Option (Json × List Char)
  | 0, _, _ => none
  | fuel + 1, s, acc =>
    match parseValue fuel s with
    | some (v, r1) =>
      match skipWs r1 with
      | ',' :: r2 => parseElems fuel r2 (acc ++ [v])
      | ']' :: r2 => some (.arr (acc ++ [v]), r2)
      | _ => none
    | none => none

end

/-- `json.Unmarshal(data, &v)` for `v any`: exactly one value, with
surrounding whitespace permitted. -/
def parseJson (s : String) : Option Json :=
  match parseValue (2 * s.data.length + 2) s.data with
  | some (j, rest) => if (skipWs rest).isEmpty then some j else none
  | none => none

/-- `json.Unmarshal(data, &s)` for `s string`: the data must be a JSON
string literal. -/
def unmarshalString (data : String) : Option String :=
  match parseJson data with
  | some (.str s) => some s
  | _ => none

/-- `data` is one syntactically valid JSON document. -/
def jsonWellFormed (data : String) : Bool := (parseJson data).isSome

/-- Lexicographic order on character lists; for whole strings this agrees
with Go's bytewise comparison of their UTF-8 encodings. -/
def charListLt : List Char → List Char → Bool
  | [], [] => false
  | [], _ :: _ => true
  | _ :: _, [] => false
  | a :: as, b :: bs =>
    if a.toNat < b.toNat then true
    else if b.toNat < a.toNat then false
    else charListLt as bs

def keyLt (a b : String) : Bool := charListLt a.data b.data

/-- Insert into a key-sorted field list (Go sorts map keys when marshaling). -/
def sortInsert (k : String) (v : Json) : List (String × Json) → List (String × Json)
  | [] => [(k, v)]
  | (k', v') :: rest =>
    if keyLt k k' then (k, v) :: (k', v') :: rest else (k', v') :: sortInsert k v rest

def sortFields : List (String × Json) → List (String × Json)
  | [] => []
  | (k, v) :: rest => sortInsert k v (sortFields rest)

/-- Render a JSON value the way `json.Marshal` renders the result of
decoding into `any`: compact, sorted object keys, Go string escaping. -/
def renderJson : Nat → Json → String
  | 0, _ => ""
  | fuel + 1, j =>
    match j with
    | .null => "null"
    | .bool true => "true"
    | .bool false => "false"
    | .num lex => lex
    | .str s => goQuote s
    | .arr xs => "[" ++ String.intercalate "," (xs.map (renderJson fuel)) ++ "]"
    | .obj fs =>
      "\x7b" ++
        String.intercalate ","
          ((sortFields fs).map (fun kv => goQuote kv.1 ++ ":" ++ renderJson fuel kv.2)) ++
        "\x7d"


/-! ## The fixture model (`simulation.go`)

Go maps (`Query`, `Headers`) are modeled as association lists; their
iteration order never influences an observable result in the source
(per-key independent writes, or early-exit conjunction scans). -/

/-- `testutil.Request` — the match key of a fixture pair. -/
structure Request where
  method : String
  path : String
  query : List (String × String)

/-- `testutil.Response` — the canned response; `body` holds the raw
`json.RawMessage` bytes. -/
structure Response where
  status : Nat
  headers : List (String × String)
  body : String

/-- `testutil.Pair`. -/
structure Pair where
  description : String := ""
  request : Request
  response : Response

/-- `testutil.Simulation`. -/
structure Simulation where
  pairs : List Pair

/-- An inbound HTTP request as the server (or the capture transport) sees
it: method, URL path, and the parsed query in document order, repeated keys
allowed (`url.Values` groups values per key preserving their order; only
that order is observable through `Get` and indexing). -/
structure IncomingRequest where
  method : String
  path : String
  query : List (String × String)

/-- `url.Values.Get` / `http.Header.Get`: first value for the key, or the
empty string when the key is absent. -/
def queryGet (q : List (String × String)) (k : String) : String :=
  match q.find? (fun kv => kv.1 == k) with
  | some kv => kv.2
  | none => ""

/-- First value for a key, if the key is present at all. -/
def queryGet? (q : List (String × String)) (k : String) : Option String :=
  (q.find? (fun kv => kv.1 == k)).map Prod.snd

/-- `Response.BodyBytes`: unquote a JSON-string-wrapped body, otherwise
return the raw JSON bytes. -/
def bodyBytes (r : Response) : String :=
  match unmarshalString r.body with
  | some s => s
  | none => r.body

/-- `matches` of `simulation.go` (renamed: `matches` is reserved in Lean).
The source guards the query loop with
`len(sim.Query) > 0`; the guard is immaterial because the loop over an
empty map trivially passes, so it is folded into the `List.all`. -/
def matchesReq (r : IncomingRequest) (sim : Request) : Bool :=
  if r.method ≠ sim.method then false
  else if r.path ≠ sim.path then false
  else sim.query.all (fun kv => queryGet r.query kv.1 == kv.2)

/-- The match rule exactly as the specification's claim C2 words it
(spec-side definition, kept for comparison with the source's
`matchesReq`): methods equal, paths equal, and for every key in the
fixture's `Query` map the incoming request carries that key with its
(first) value exactly equal to the fixture's. -/
def specClaimMatch (r : IncomingRequest) (sim : Request) : Prop :=
  r.method = sim.method ∧ r.path = sim.path ∧
    ∀ kv ∈ sim.query, queryGet? r.query kv.1 = some kv.2

/-- What the handler writes back for one request. -/
structure ServedResponse where
  status : Nat
  headers : List (String × String)
  body : String

/-- The response written for a matching pair: the pair's headers applied
via `Header().Set`, `Content-Type` defaulted to `application/json` when
unset, status defaulted to 200 when zero, and the unwrapped body bytes. -/
def serveOf (p : Pair) : ServedResponse :=
  let hs := p.response.headers.foldl (fun acc kv => updAssoc acc kv.1 kv.2) []
  let hs2 :=
    if queryGet hs "Content-Type" = "" then updAssoc hs "Content-Type" "application/json"
    else hs
  { status := if p.response.status = 0 then 200 else p.response.status
    headers := hs2
    body := bodyBytes p.response }

/-- The URL as printed in the no-match diagnostic (`r.URL.String()`),
modeled as path plus the query in document order. -/
def urlString (r : IncomingRequest) : String :=
  r.path ++
    (if r.query.isEmpty then ""
     else "?" ++ String.intercalate "&" (r.query.map (fun kv => kv.1 ++ "=" ++ kv.2)))

/-- The detailed 404 written when no pair matches. -/
def notFoundResponse (r : IncomingRequest) : ServedResponse :=
  { status := 404
    headers := [("Content-Type", "text/plain")]
    body := "no matching simulation for " ++ r.method ++ " " ++ urlString r }

/-- `SimulationServer.handler`: scan `Pairs` in order, serve the first pair
whose `Request` matches, else the diagnostic 404.  (`List.find?` is the
source's first-match loop; the handler's request log, which does not
influence the response, is not modeled.) -/
def handler (sim : Simulation) (r : IncomingRequest) : ServedResponse :=
  match sim.pairs.find? (fun p => matchesReq r p.request) with
  | some p => serveOf p
  | none => notFoundResponse r

/-! ## The capture transport (`capture.go`) -/

/-- ASCII case folding (the relevant fragment of `strings.EqualFold` for
MIME header names). -/
def lowerChar (c : Char) : Char :=
  if 'A' ≤ c ∧ c ≤ 'Z' then Char.ofNat (c.toNat + 32) else c

def strEqualFold (s t : String) : Bool :=
  s.data.map lowerChar == t.data.map lowerChar

/-- `bytes.TrimSpace(data)` is nonempty and starts with `{` or `[`
(`isJSON` of `capture.go`). -/
def isJSONBytes (data : String) : Bool :=
  match dropLeadingSpace data.data with
  | [] => false
  | c :: _ => c = '{' || c = '['

/-- The stored `Response.Body`: raw bytes when the `Content-Type` mentions
json or the bytes sniff as JSON, else the payload JSON-encoded as a string
(`json.Marshal` of a Go string cannot fail, so the source's error branch
after it is unreachable and the model is total). -/
def storeBody (contentType respBody : String) : String :=
  if strContains contentType "json" || isJSONBytes respBody then respBody
  else goQuote respBody

/-- The query map recorded by capture: one entry per distinct key in
first-appearance order (the Go map itself is unordered), holding the key's
first value, with `access_token` and `format` excluded. -/
def captureQueryF : Nat → List (String × String) → List (String × String)
  | 0, _ => []
  | _ + 1, [] => []
  | fuel + 1, (k, v) :: rest =>
    if k = "access_token" || k = "format" then captureQueryF fuel rest
    else (k, v) :: captureQueryF fuel (rest.filter (fun kv => kv.1 ≠ k))

/-- Wrapper: each step consumes at least one entry (filtering only
shortens), so the fuel is never exhausted. -/
def captureQuery (q : List (String × String)) : List (String × String) :=
  captureQueryF (q.length + 1) q

/-- The headers recorded by capture: only `Content-Type` is preserved
(matched case-insensitively; `http.Header` keys are canonical, so at most
one key can fold to it). -/
def captureHeaders (hs : List (String × String)) : List (String × String) :=
  match hs.find? (fun kv => strEqualFold kv.1 "Content-Type") with
  | some kv => [("Content-Type", kv.2)]
  | none => []

/-- The base transport's result as `RoundTrip` observes it: status,
headers, and the outcome of `io.ReadAll` on the body. -/
structure BaseResponse where
  status : Nat
  headers : List (String × String)
  bodyRead : Except String String

/-- `RecordingTransport.RoundTrip`: propagate a transport error or a body
read error recording nothing; on success append exactly one `Pair` built
from the request's filtered query and the response's status, content type
and stored body, and hand the (re-buffered) response back to the caller. -/
def roundTrip (pairs : List Pair) (req : IncomingRequest)
    (base : Except String BaseResponse) : Except String BaseResponse × List Pair :=
  match base with
  | .error e => (.error e, pairs)
  | .ok resp =>
    match resp.bodyRead with
    | .error e => (.error e, pairs)
    | .ok respBody =>
      let contentType := queryGet resp.headers "Content-Type"
      let pair : Pair :=
        { request :=
            { method := req.method
              path := req.path
              query := captureQuery req.query }
          response :=
            { status := resp.status
              headers := captureHeaders resp.headers
              body := storeBody contentType respBody } }
      (.ok resp, pairs ++ [pair])

/-! ## The redaction pipeline (`redact.go`)

The package-level `entityNameCounters` map is threaded explicitly as a
`Counters` state; `ResetCounters` corresponds to starting from `[]`.
Object fields are visited in list order (the Go `map` iteration order is
unspecified; only which counter values exist, not their assignment among
sibling `Name` fields, is order-dependent, and no claim depends on that
assignment). -/

/-- The per-resource-type counters of `entityNameCounters`. -/
abbrev Counters := List (String × Nat)

def counterGet (σ : Counters) (k : String) : Nat := (getAssoc? σ k).getD 0

/-- `testutil.RedactOptions`. -/
structure RedactOptions where
  replacementDomain : String
  realDomain : String

/-- `DefaultRedactOptions`. -/
def defaultRedactOptions (realDomain : String) : RedactOptions :=
  { replacementDomain := "test.tpondemand.com", realDomain := realDomain }

/-- `replaceDomain`: plain substring replacement, skipped entirely for an
empty real domain. -/
def replaceDomain (s : String) (opts : RedactOptions) : String :=
  if opts.realDomain = "" then s
  else replaceAllStr s opts.realDomain opts.replacementDomain

/-- `redactString`: domain substitution then email masking. -/
def redactString (s : String) (opts : RedactOptions) : String :=
  emailReplaceAll (replaceDomain s opts)

/-- The field-name → strategy table of `redact.go`. -/
def sensitiveFieldPatterns : List (String × String) :=
  [("Description", "text"), ("Login", "login"), ("Email", "email"),
   ("FirstName", "firstname"), ("LastName", "lastname"), ("FullName", "fullname"),
   ("Icon", "url"), ("AvatarUri", "url"), ("Company", "text"), ("Phone", "text"),
   ("Tags", "text"), ("CustomField1", "text"), ("CustomField2", "text"),
   ("CustomField3", "text")]

def applyRedactionStrategy (strategy val : String) (opts : RedactOptions) : String :=
  if strategy = "email" then "testuser@example.com"
  else if strategy = "login" then "testuser"
  else if strategy = "firstname" then "Test"
  else if strategy = "lastname" then "User"
  else if strategy = "fullname" then "Test User"
  else if strategy = "url" then replaceDomain val opts
  else if strategy = "text" then "Redacted text"
  else val

/-- The allow-list of `isEntityName`: resource types whose real names are
kept. -/
def preserveTypes : List (String × Bool) :=
  [("EntityState", true), ("EntityType", true), ("Priority", true),
   ("Role", true), ("Process", true), ("Workflow", true)]

/-- `isEntityName`: true when the type's `Name` should be anonymized. -/
def isEntityName (resourceType : String) : Bool :=
  match getAssoc? preserveTypes resourceType with
  | some keep => !keep
  | none => true

/-- `redactEntityName`: bump the per-type counter and produce
`"Test <ResourceType> <N>"` (empty type falls back to `"Entity"`). -/
def redactEntityName (resourceType : String) (σ : Counters) : String × Counters :=
  let rt := if resourceType = "" then "Entity" else resourceType
  let n := counterGet σ rt + 1
  ("Test " ++ rt ++ " " ++ natToString n, updAssoc σ rt n)

/-- The resource-type tag of an object (`ResourceType` then `resourceType`,
each only when it holds a string). -/
def resourceTypeOf (fields : List (String × Json)) : String :=
  match getAssoc? fields "ResourceType" with
  | some (.str rt) => rt
  | _ =>
    match getAssoc? fields "resourceType" with
    | some (.str rt) => rt
    | _ => ""

mutual

/-- `redactValue`: dispatch on the decoded JSON value.  Fuel strictly
exceeds the recursion depth for the fuel chosen by `redactBody`. -/
def redactValue : Nat → Json → RedactOptions → Counters → Json × Counters
  | 0, v, _, σ => (v, σ)
  | fuel + 1, v, opts, σ =>
    match v with
    | .obj fields =>
      let r := redactFields fuel fields opts (resourceTypeOf fields) σ
      (.obj r.1, r.2)
    | .arr xs =>
      let r := redactElems fuel xs opts σ
      (.arr r.1, r.2)
    | .str s => (.str (redactString s opts), σ)
    | other => (other, σ)

/-- Array elements are redacted independently, in order, threading the
counter state. -/
def redactElems : Nat → List Json → RedactOptions → Counters → List Json × Counters
  | 0, xs, _, σ => (xs, σ)
  | _ + 1, [], _, σ => ([], σ)
  | fuel + 1, x :: rest, opts, σ =>
    let r1 := redactValue fuel x opts σ
    let r2 := redactElems fuel rest opts r1.2
    (r1.1 :: r2.1, r2.2)

/-- `redactObject`'s field loop (the resource type is computed once for
the whole object). -/
def redactFields : Nat → List (String × Json) → RedactOptions → String → Counters →
    List (String × Json) × Counters
  | 0, fs, _, _, σ => (fs, σ)
  | _ + 1, [], _, _, σ => ([], σ)
  | fuel + 1, (k, v) :: rest, opts, rt, σ =>
    let r1 := redactFieldValue fuel k v opts rt σ
    let r2 := redactFields fuel rest opts rt r1.2
    ((k, r1.1) :: r2.1, r2.2)

/-- `redactFieldValue`, first step: the sensitive-field table (falls
through unless the value is a non-empty string).  The three sequential
checks of the one Go function are split into three functions; the fuel,
generous by construction, decreases along the chain only to keep the
recursion structural. -/
def redactFieldValue : Nat → String → Json → RedactOptions → String → Counters →
    Json × Counters
  | fuel + 1, fieldName, v, opts, rt, σ =>
    match getAssoc? sensitiveFieldPatterns fieldName, v with
    | some strategy, .str s =>
      if s ≠ "" then (.str (applyRedactionStrategy strategy s opts), σ)
      else redactFieldName fuel fieldName v opts rt σ
    | _, _ => redactFieldName fuel fieldName v opts rt σ
  | 0, _, v, _, _, σ => (v, σ)

/-- `redactFieldValue`, second step: the `Name`/`name` check (anonymize
only when `isEntityName` holds; otherwise fall through). -/
def redactFieldName : Nat → String → Json → RedactOptions → String → Counters →
    Json × Counters
  | fuel + 1, fieldName, v, opts, rt, σ =>
    if fieldName = "Name" ∨ fieldName = "name" then
      match v with
      | .str s =>
        if s ≠ "" ∧ isEntityName rt then
          let r := redactEntityName rt σ
          (.str r.1, r.2)
        else redactFieldCustom fuel fieldName v opts rt σ
      | _ => redactFieldCustom fuel fieldName v opts rt σ
    else redactFieldCustom fuel fieldName v opts rt σ
  | 0, _, v, _, _, σ => (v, σ)

/-- `redactFieldValue`, third step: the bare `Value` field of an object
without a resource-type tag, then the recursive fallback. -/
def redactFieldCustom : Nat → String → Json → RedactOptions → String → Counters →
    Json × Counters
  | fuel + 1, fieldName, v, opts, rt, σ =>
    if fieldName = "Value" ∧ rt = "" then
      match v with
      | .str s =>
        if s ≠ "" then (.str "Redacted value", σ)
        else redactValue fuel v opts σ
      | _ => redactValue fuel v opts σ
    else redactValue fuel v opts σ
  | 0, _, v, _, _, σ => (v, σ)

end

/-- `redactXMLContent`'s regex `Description="[^"]*"`, replaced everywhere
by `Description="Redacted description"`: leftmost non-overlapping matches,
a match requiring the closing quote. -/
def redactXMLCoreF : Nat → List Char → List Char
  | 0, s => s
  | _ + 1, [] => []
  | fuel + 1, c :: rest =>
    let after := rest.drop 12
    let content := after.takeWhile (fun ch => ch ≠ '"')
    if ("Description=\"".data).isPrefixOf (c :: rest) ∧ content.length < after.length then
      "Description=\"Redacted description\"".data ++
        redactXMLCoreF fuel (after.drop (content.length + 1))
    else c :: redactXMLCoreF fuel rest

/-- Wrapper: each step consumes at least one character, so the fuel is
never exhausted. -/
def redactXMLCore (s : List Char) : List Char := redactXMLCoreF (s.length + 1) s

def redactXMLContent (xml : String) : String :=
  ⟨redactXMLCore xml.data⟩

def redactBody (body : String) (opts : RedactOptions) (σ : Counters) : String × Counters :=
  match parseJson body with
  | none =>
    match unmarshalString body with
    | some s =>
      let s1 := redactXMLContent (replaceDomain s opts)
      (renderJson (body.data.length + 2) (.str s1), σ)
    | none => (body, σ)
  | some parsed =>
    let r := redactValue (4 * body.data.length + 8) parsed opts σ
    (renderJson (body.data.length + 2) r.1, r.2)

/-- `redactPair`: query values (token placeholder or domain substitution),
body, then header values. -/
def redactPair (p : Pair) (opts : RedactOptions) (σ : Counters) : Pair × Counters :=
  let query' := p.request.query.map (fun kv =>
    (kv.1, if kv.1 = "access_token" then "REDACTED" else replaceDomain kv.2 opts))
  let rb := redactBody p.response.body opts σ
  let headers' := p.response.headers.map (fun kv => (kv.1, replaceDomain kv.2 opts))
  ({ description := p.description
     request := { p.request with query := query' }
     response := { status := p.response.status, headers := headers', body := rb.1 } },
   rb.2)

/-- `RedactSimulation`: redact every pair in order, threading the counter
state (the source mutates in place through the package-level counters). -/
def redactSimulation (sim : Simulation) (opts : RedactOptions) (σ : Counters) :
    Simulation × Counters :=
  let r := sim.pairs.foldl
    (fun (acc : List Pair × Counters) p =>
      let rp := redactPair p opts acc.2
      (acc.1 ++ [rp.1], rp.2))
    ([], σ)
  ({ pairs := r.1 }, r.2)

/-! ## Persisting a simulation (`SaveSimulation` / `LoadSimulation`)

`SaveSimulation` runs `json.MarshalIndent`, which validates every raw
`Body` (erroring on invalid JSON bytes) and re-embeds it reformatted;
`LoadSimulation` parses the file back, restoring every field, with each
`Body` holding the re-laid-out bytes.  The model below re-renders each
parsed body canonically.  Go instead preserves the body's own token order
and escaping and only reformats whitespace; the two agree byte-for-byte on
string-literal bodies — the only case the round-trip theorem relies on —
and for composite bodies both differ from the captured bytes only in
layout. -/

def saveLoadPair (p : Pair) : Option Pair :=
  (parseJson p.response.body).map (fun j =>
    { p with response :=
        { p.response with body := renderJson (p.response.body.data.length + 2) j } })

def saveLoadPairs : List Pair → Option (List Pair)
  | [] => some []
  | p :: rest =>
    match saveLoadPair p, saveLoadPairs rest with
    | some p', some rest' => some (p' :: rest')
    | _, _ => none

def saveLoadSimulation (sim : Simulation) : Option Simulation :=
  (saveLoadPairs sim.pairs).map Simulation.mk


/-! ## Theorems

First the library of facts about the `encoding/json` model, the decimal
renderer and the capture query map; then one theorem per specification
claim (with witnesses and counterexamples).
-/

theorem strExt {s t : String} (h : s.data = t.data) : s = t := congrArg String.mk h

theorem scanStringF_lit (fuel : Nat) (c : Char) (T : List Char)
    (h1 : ¬ c = '"') (h2 : ¬ c = '\\') (h6 : ¬ c.toNat < 0x20) :
    scanStringF (fuel + 1) (c :: T) = consFst c (scanStringF fuel T) := by
  simp only [scanStringF]
  rw [if_neg h1, if_neg h2, if_neg h6]

theorem scanStringF_u00 (fuel : Nat) (x y : Char) (T : List Char) (v : Nat)
    (hv : hex4 '0' '0' x y = some v) (hlow : v < 0xD800) :
    scanStringF (fuel + 2) ('\\' :: 'u' :: '0' :: '0' :: x :: y :: T) =
      consFst (Char.ofNat v) (scanStringF fuel T) := by
  show scanEscape (fuel + 1) ('u' :: '0' :: '0' :: x :: y :: T) = _
  simp only [scanEscape]
  rw [hv]
  show (if 0xD800 ≤ v ∧ v < 0xDC00 then scanSurrogate v fuel T
        else if 0xDC00 ≤ v ∧ v < 0xE000 then consFst '�' (scanStringF fuel T)
        else consFst (Char.ofNat v) (scanStringF fuel T)) = _
  rw [if_neg (by omega), if_neg (by omega)]

theorem unhex_hexDigitChar : ∀ n, n < 16 → unhex (hexDigitChar n) = some n := by decide

theorem hex4_00 (v : Nat) (h : v < 256) :
    hex4 '0' '0' (hexDigitChar (v / 16)) (hexDigitChar (v % 16)) = some v := by
  unfold hex4
  rw [show unhex '0' = some 0 from rfl,
      unhex_hexDigitChar _ (by omega), unhex_hexDigitChar _ (by omega)]
  simp only [Option.some.injEq]
  omega

theorem scanQuoteF : ∀ (cs : List Char) (fuel : Nat) (rest : List Char),
    (quoteChars cs).length < fuel →
    scanStringF fuel (quoteChars cs ++ '"' :: rest) = some (cs, rest) := by
  intro cs
  induction cs with
  | nil =>
    intro fuel rest h
    obtain ⟨f, rfl⟩ : ∃ f, fuel = f + 1 := ⟨fuel - 1, by omega⟩
    rfl
  | cons c cs ih =>
    intro fuel rest h
    rw [show quoteChars (c :: cs) = quoteChar c ++ quoteChars cs from rfl] at h ⊢
    rw [List.append_assoc]
    by_cases h1 : c = '"'
    · subst h1
      rw [show quoteChar '"' = ['\\', '"'] from rfl] at h ⊢
      simp only [List.length_append, List.length_cons, List.length_nil] at h
      obtain ⟨f, rfl⟩ : ∃ f, fuel = f + 2 := ⟨fuel - 2, by omega⟩
      show consFst '"' (scanStringF f (quoteChars cs ++ '"' :: rest)) = _
      rw [ih f rest (by omega)]
      rfl
    by_cases h2 : c = '\\'
    · subst h2
      rw [show quoteChar '\\' = ['\\', '\\'] from rfl] at h ⊢
      simp only [List.length_append, List.length_cons, List.length_nil] at h
      obtain ⟨f, rfl⟩ : ∃ f, fuel = f + 2 := ⟨fuel - 2, by omega⟩
      show consFst '\\' (scanStringF f (quoteChars cs ++ '"' :: rest)) = _
      rw [ih f rest (by omega)]
      rfl
    by_cases h3 : c = '\n'
    · subst h3
      rw [show quoteChar '\n' = ['\\', 'n'] from rfl] at h ⊢
      simp only [List.length_append, List.length_cons, List.length_nil] at h
      obtain ⟨f, rfl⟩ : ∃ f, fuel = f + 2 := ⟨fuel - 2, by omega⟩
      show consFst '\n' (scanStringF f (quoteChars cs ++ '"' :: rest)) = _
      rw [ih f rest (by omega)]
      rfl
    by_cases h4 : c = '\r'
    · subst h4
      rw [show quoteChar '\r' = ['\\', 'r'] from rfl] at h ⊢
      simp only [List.length_append, List.length_cons, List.length_nil] at h
      obtain ⟨f, rfl⟩ : ∃ f, fuel = f + 2 := ⟨fuel - 2, by omega⟩
      show consFst '\r' (scanStringF f (quoteChars cs ++ '"' :: rest)) = _
      rw [ih f rest (by omega)]
      rfl
    by_cases h5 : c = '\t'
    · subst h5
      rw [show quoteChar '\t' = ['\\', 't'] from rfl] at h ⊢
      simp only [List.length_append, List.length_cons, List.length_nil] at h
      obtain ⟨f, rfl⟩ : ∃ f, fuel = f + 2 := ⟨fuel - 2, by omega⟩
      show consFst '\t' (scanStringF f (quoteChars cs ++ '"' :: rest)) = _
      rw [ih f rest (by omega)]
      rfl
    by_cases h6 : c.toNat < 0x20
    · have hq : quoteChar c =
          ['\\', 'u', '0', '0', hexDigitChar (c.toNat / 16), hexDigitChar (c.toNat % 16)] := by
        unfold quoteChar
        rw [if_neg h1, if_neg h2, if_neg h3, if_neg h4, if_neg h5, if_pos h6]
      rw [hq] at h ⊢
      simp only [List.length_append, List.length_cons, List.length_nil] at h
      obtain ⟨f, rfl⟩ : ∃ f, fuel = f + 2 := ⟨fuel - 2, by omega⟩
      show scanStringF (f + 2) ('\\' :: 'u' :: '0' :: '0' :: hexDigitChar (c.toNat / 16) ::
        hexDigitChar (c.toNat % 16) :: (quoteChars cs ++ '"' :: rest)) = _
      rw [scanStringF_u00 f _ _ _ c.toNat (hex4_00 c.toNat (by omega)) (by omega)]
      rw [Char.ofNat_toNat, ih f rest (by omega)]
      rfl
    by_cases h7 : c = '<'
    · subst h7
      rw [show quoteChar '<' = ['\\', 'u', '0', '0', '3', 'c'] from rfl] at h ⊢
      simp only [List.length_append, List.length_cons, List.length_nil] at h
      obtain ⟨f, rfl⟩ : ∃ f, fuel = f + 2 := ⟨fuel - 2, by omega⟩
      show scanStringF (f + 2) ('\\' :: 'u' :: '0' :: '0' :: '3' :: 'c' ::
        (quoteChars cs ++ '"' :: rest)) = _
      rw [scanStringF_u00 f '3' 'c' _ 60 rfl (by omega)]
      rw [show Char.ofNat 60 = '<' from rfl, ih f rest (by omega)]
      rfl
    by_cases h8 : c = '>'
    · subst h8
      rw [show quoteChar '>' = ['\\', 'u', '0', '0', '3', 'e'] from rfl] at h ⊢
      simp only [List.length_append, List.length_cons, List.length_nil] at h
      obtain ⟨f, rfl⟩ : ∃ f, fuel = f + 2 := ⟨fuel - 2, by omega⟩
      show scanStringF (f + 2) ('\\' :: 'u' :: '0' :: '0' :: '3' :: 'e' ::
        (quoteChars cs ++ '"' :: rest)) = _
      rw [scanStringF_u00 f '3' 'e' _ 62 rfl (by omega)]
      rw [show Char.ofNat 62 = '>' from rfl, ih f rest (by omega)]
      rfl
    by_cases h9 : c = '&'
    · subst h9
      rw [show quoteChar '&' = ['\\', 'u', '0', '0', '2', '6'] from rfl] at h ⊢
      simp only [List.length_append, List.length_cons, List.length_nil] at h
      obtain ⟨f, rfl⟩ : ∃ f, fuel = f + 2 := ⟨fuel - 2, by omega⟩
      show scanStringF (f + 2) ('\\' :: 'u' :: '0' :: '0' :: '2' :: '6' ::
        (quoteChars cs ++ '"' :: rest)) = _
      rw [scanStringF_u00 f '2' '6' _ 38 rfl (by omega)]
      rw [show Char.ofNat 38 = '&' from rfl, ih f rest (by omega)]
      rfl
    by_cases h10 : c.toNat = 0x2028
    · have hc : c = '\u2028' := by
        rw [← Char.ofNat_toNat c, h10]
      subst hc
      rw [show quoteChar '\u2028' = ['\\', 'u', '2', '0', '2', '8'] from rfl] at h ⊢
      simp only [List.length_append, List.length_cons, List.length_nil] at h
      obtain ⟨f, rfl⟩ : ∃ f, fuel = f + 2 := ⟨fuel - 2, by omega⟩
      show scanEscape (f + 1) ('u' :: '2' :: '0' :: '2' :: '8' ::
        (quoteChars cs ++ '"' :: rest)) = _
      simp only [scanEscape]
      rw [show hex4 '2' '0' '2' '8' = some 0x2028 from rfl]
      show (if 0xD800 ≤ 0x2028 ∧ (0x2028:Nat) < 0xDC00 then _
            else if 0xDC00 ≤ 0x2028 ∧ (0x2028:Nat) < 0xE000 then _
            else consFst (Char.ofNat 0x2028) (scanStringF f (quoteChars cs ++ '"' :: rest))) = _
      rw [if_neg (by omega), if_neg (by omega)]
      rw [show Char.ofNat 0x2028 = '\u2028' from rfl, ih f rest (by omega)]
      rfl
    by_cases h11 : c.toNat = 0x2029
    · have hc : c = '\u2029' := by
        rw [← Char.ofNat_toNat c, h11]
      subst hc
      rw [show quoteChar '\u2029' = ['\\', 'u', '2', '0', '2', '9'] from rfl] at h ⊢
      simp only [List.length_append, List.length_cons, List.length_nil] at h
      obtain ⟨f, rfl⟩ : ∃ f, fuel = f + 2 := ⟨fuel - 2, by omega⟩
      show scanEscape (f + 1) ('u' :: '2' :: '0' :: '2' :: '9' ::
        (quoteChars cs ++ '"' :: rest)) = _
      simp only [scanEscape]
      rw [show hex4 '2' '0' '2' '9' = some 0x2029 from rfl]
      show (if 0xD800 ≤ 0x2029 ∧ (0x2029:Nat) < 0xDC00 then _
            else if 0xDC00 ≤ 0x2029 ∧ (0x2029:Nat) < 0xE000 then _
            else consFst (Char.ofNat 0x2029) (scanStringF f (quoteChars cs ++ '"' :: rest))) = _
      rw [if_neg (by omega), if_neg (by omega)]
      rw [show Char.ofNat 0x2029 = '\u2029' from rfl, ih f rest (by omega)]
      rfl
    · have hq : quoteChar c = [c] := by
        unfold quoteChar
        rw [if_neg h1, if_neg h2, if_neg h3, if_neg h4, if_neg h5, if_neg h6]
        rw [if_neg (by simp [h7, h8, h9]), if_neg (by simp [h10, h11])]
      rw [hq] at h ⊢
      simp only [List.length_append, List.length_cons, List.length_nil] at h
      obtain ⟨f, rfl⟩ : ∃ f, fuel = f + 1 := ⟨fuel - 1, by omega⟩
      rw [show ([c] ++ (quoteChars cs ++ '"' :: rest)) = c :: (quoteChars cs ++ '"' :: rest)
        from rfl]
      rw [scanStringF_lit f c _ h1 h2 h6]
      rw [ih f rest (by omega)]
      rfl

theorem quoteChar_length_pos (c : Char) : 1 ≤ (quoteChar c).length := by
  unfold quoteChar
  split_ifs <;> simp

theorem quoteChars_length_ge (cs : List Char) : cs.length ≤ (quoteChars cs).length := by
  induction cs with
  | nil => simp [quoteChars]
  | cons c cs ih =>
    show cs.length + 1 ≤ (quoteChar c ++ quoteChars cs).length
    rw [List.length_append]
    have := quoteChar_length_pos c
    omega

/-- The scanner inverts the encoder on any encoded string body. -/
theorem scanString_quote (cs rest : List Char) :
    scanString (quoteChars cs ++ '"' :: rest) = some (cs, rest) := by
  unfold scanString
  apply scanQuoteF
  simp only [List.length_append, List.length_cons]
  omega

/-- `json.Unmarshal` inverts `json.Marshal` on Go strings: parsing an
encoded string literal yields exactly the original string. -/
theorem parseJson_goQuote (s : String) : parseJson (goQuote s) = some (.str s) := by
  show parseJson ⟨'"' :: (quoteChars s.data ++ ['"'])⟩ = some (.str s)
  unfold parseJson
  show (match parseValue (2 * ('"' :: (quoteChars s.data ++ ['"'])).length + 2)
          ('"' :: (quoteChars s.data ++ ['"'])) with
        | some (j, rest) => if (skipWs rest).isEmpty then some j else none
        | none => none) = some (.str s)
  have hv : parseValue (2 * ('"' :: (quoteChars s.data ++ ['"'])).length + 2)
      ('"' :: (quoteChars s.data ++ ['"'])) = some (.str s, []) := by
    show (match scanString (quoteChars s.data ++ ['"']) with
          | some (cs, r) => some (Json.str ⟨cs⟩, r)
          | none => none) = some (.str s, [])
    rw [show (quoteChars s.data ++ ['"'] : List Char) = quoteChars s.data ++ '"' :: [] from rfl]
    rw [scanString_quote s.data []]
  rw [hv]
  rfl

theorem renderJson_str (fuel : Nat) (s : String) :
    renderJson (fuel + 1) (.str s) = goQuote s := rfl

theorem unmarshalString_goQuote (s : String) : unmarshalString (goQuote s) = some s := by
  unfold unmarshalString
  rw [parseJson_goQuote]

theorem jsonWellFormed_goQuote (s : String) : jsonWellFormed (goQuote s) = true := by
  unfold jsonWellFormed
  rw [parseJson_goQuote]
  rfl

theorem bodyBytes_goQuote (status : Nat) (headers : List (String × String)) (s : String) :
    bodyBytes ⟨status, headers, goQuote s⟩ = s := by
  unfold bodyBytes
  rw [show (⟨status, headers, goQuote s⟩ : Response).body = goQuote s from rfl]
  rw [unmarshalString_goQuote]


theorem digitVal_digitChar : ∀ d, d < 10 → digitVal (digitChar d) = d := by decide

theorem digitsVal_append (ds : List Char) (c : Char) :
    digitsVal (ds ++ [c]) = digitsVal ds * 10 + digitVal c := by
  unfold digitsVal
  rw [List.foldl_append]
  rfl

theorem digitsVal_natDigitsF : ∀ fuel n, n < fuel → digitsVal (natDigitsF fuel n) = n := by
  intro fuel
  induction fuel with
  | zero => intro n h; omega
  | succ f ih =>
    intro n h
    show digitsVal (if n < 10 then [digitChar n] else natDigitsF f (n / 10) ++ [digitChar (n % 10)]) = n
    by_cases h10 : n < 10
    · rw [if_pos h10]
      show 0 * 10 + digitVal (digitChar n) = n
      rw [digitVal_digitChar n h10]
      omega
    · have hd : n / 10 < f := by
        have := Nat.div_lt_self (show 0 < n by omega) (show (1:Nat) < 10 by omega)
        omega
      rw [if_neg h10, digitsVal_append, ih (n / 10) hd, digitVal_digitChar (n % 10) (by omega)]
      omega

/-- The decimal renderer is injective (it has a left inverse). -/
theorem natToString_inj {a b : Nat} (h : natToString a = natToString b) : a = b := by
  have hd : natDigitsF (a + 1) a = natDigitsF (b + 1) b := congrArg String.data h
  have hv := digitsVal_natDigitsF (a + 1) a (by omega)
  rw [hd, digitsVal_natDigitsF (b + 1) b (by omega)] at hv
  omega

/-- Distinct counter values give distinct placeholder names. -/
theorem placeholder_ne (rt : String) {m n : Nat} (h : m ≠ n) :
    ("Test " ++ rt ++ " " ++ natToString m) ≠ ("Test " ++ rt ++ " " ++ natToString n) := by
  intro he
  apply h
  apply natToString_inj
  have hd := congrArg String.data he
  simp only [String.data_append, List.append_assoc] at hd
  exact strExt (List.append_cancel_left (List.append_cancel_left (List.append_cancel_left hd)))

theorem getAssoc?_updAssoc {α : Type} (σ : List (String × α)) (k k' : String) (v : α) :
    getAssoc? (updAssoc σ k v) k' = if k' = k then some v else getAssoc? σ k' := by
  induction σ with
  | nil =>
    by_cases hk : k' = k
    · simp [updAssoc, getAssoc?, List.find?, hk]
    · have hb : (k == k') = false := by
        simp only [beq_eq_false_iff_ne, ne_eq]
        exact fun hh => hk hh.symm
      simp [updAssoc, getAssoc?, List.find?, hk, hb]
  | cons e rest ih =>
    show getAssoc? (if e.1 = k then (k, v) :: rest else e :: updAssoc rest k v) k' = _
    by_cases he : e.1 = k
    · rw [if_pos he]
      by_cases hk : k' = k
      · simp [getAssoc?, List.find?, hk, he]
      · have hb : (k == k') = false := by
          simp only [beq_eq_false_iff_ne, ne_eq]
          exact fun hh => hk hh.symm
        simp [getAssoc?, List.find?, hk, he, hb]
    · rw [if_neg he]
      by_cases hek : e.1 = k'
      · have hk : ¬ k' = k := fun hh => he (hek.trans hh)
        simp [getAssoc?, List.find?, hek, hk, beq_iff_eq]
      · have h1 : (e.1 == k') = false := by simp [beq_iff_eq, hek]
        show getAssoc? (e :: updAssoc rest k v) k' = _
        rw [show getAssoc? (e :: updAssoc rest k v) k' = getAssoc? (updAssoc rest k v) k' by
          simp [getAssoc?, List.find?, h1]]
        rw [ih]
        by_cases hk : k' = k <;>
          simp [hk, getAssoc?, List.find?, h1]

theorem counterGet_updAssoc (σ : Counters) (k k' : String) (n : Nat) :
    counterGet (updAssoc σ k n) k' = if k' = k then n else counterGet σ k' := by
  unfold counterGet
  rw [getAssoc?_updAssoc]
  by_cases hk : k' = k <;> simp [hk]

theorem redactEntityName_counter (rt : String) (σ : Counters) :
    counterGet (redactEntityName rt σ).2 (if rt = "" then "Entity" else rt) =
      counterGet σ (if rt = "" then "Entity" else rt) + 1 := by
  show counterGet (updAssoc σ (if rt = "" then "Entity" else rt) _) _ = _
  rw [counterGet_updAssoc, if_pos rfl]

theorem redactEntityName_mono (rt : String) (σ : Counters) (k : String) :
    counterGet σ k ≤ counterGet (redactEntityName rt σ).2 k := by
  show counterGet σ k ≤ counterGet (updAssoc σ (if rt = "" then "Entity" else rt) _) k
  rw [counterGet_updAssoc]
  by_cases hk : k = (if rt = "" then "Entity" else rt)
  · rw [if_pos hk, hk]
    omega
  · rw [if_neg hk]


/-- Counters never decrease through any part of the redaction recursion. -/
theorem redact_counters_mono : ∀ fuel : Nat,
    (∀ v opts σ k, counterGet σ k ≤ counterGet (redactValue fuel v opts σ).2 k) ∧
    (∀ xs opts σ k, counterGet σ k ≤ counterGet (redactElems fuel xs opts σ).2 k) ∧
    (∀ fs opts rt σ k, counterGet σ k ≤ counterGet (redactFields fuel fs opts rt σ).2 k) ∧
    (∀ fn v opts rt σ k, counterGet σ k ≤ counterGet (redactFieldValue fuel fn v opts rt σ).2 k) ∧
    (∀ fn v opts rt σ k, counterGet σ k ≤ counterGet (redactFieldName fuel fn v opts rt σ).2 k) ∧
    (∀ fn v opts rt σ k, counterGet σ k ≤ counterGet (redactFieldCustom fuel fn v opts rt σ).2 k) := by
  intro fuel
  induction fuel with
  | zero =>
    refine ⟨?_, ?_, ?_, ?_, ?_, ?_⟩ <;> intros <;> exact Nat.le_refl _
  | succ f ih =>
    obtain ⟨ihV, ihE, ihF, ihFV, ihFN, ihFC⟩ := ih
    have hV : ∀ v opts σ k, counterGet σ k ≤ counterGet (redactValue (f + 1) v opts σ).2 k := by
      intro v opts σ k
      cases v with
      | obj fields => exact ihF fields opts (resourceTypeOf fields) σ k
      | arr xs => exact ihE xs opts σ k
      | str s => exact Nat.le_refl _
      | num l => exact Nat.le_refl _
      | bool b => exact Nat.le_refl _
      | null => exact Nat.le_refl _
    have hE : ∀ xs opts σ k, counterGet σ k ≤ counterGet (redactElems (f + 1) xs opts σ).2 k := by
      intro xs opts σ k
      cases xs with
      | nil => exact Nat.le_refl _
      | cons x rest =>
        exact Nat.le_trans (ihV x opts σ k) (ihE rest opts (redactValue f x opts σ).2 k)
    have hF : ∀ fs opts rt σ k, counterGet σ k ≤ counterGet (redactFields (f + 1) fs opts rt σ).2 k := by
      intro fs opts rt σ k
      cases fs with
      | nil => exact Nat.le_refl _
      | cons kv rest =>
        exact Nat.le_trans (ihFV kv.1 kv.2 opts rt σ k)
          (ihF rest opts rt (redactFieldValue f kv.1 kv.2 opts rt σ).2 k)
    have hFC : ∀ fn v opts rt σ k,
        counterGet σ k ≤ counterGet (redactFieldCustom (f + 1) fn v opts rt σ).2 k := by
      intro fn v opts rt σ k
      show counterGet σ k ≤
        counterGet (if fn = "Value" ∧ rt = "" then
          match v with
          | .str s => if s ≠ "" then (Json.str "Redacted value", σ) else redactValue f v opts σ
          | _ => redactValue f v opts σ
        else redactValue f v opts σ).2 k
      split
      · cases v with
        | str s =>
          show counterGet σ k ≤ counterGet (if s ≠ "" then (Json.str "Redacted value", σ)
            else redactValue f (Json.str s) opts σ).2 k
          split
          · exact Nat.le_refl _
          · exact ihV _ opts σ k
        | obj fields => exact ihV _ opts σ k
        | arr xs => exact ihV _ opts σ k
        | num l => exact ihV _ opts σ k
        | bool b => exact ihV _ opts σ k
        | null => exact ihV _ opts σ k
      · exact ihV v opts σ k
    have hFN : ∀ fn v opts rt σ k,
        counterGet σ k ≤ counterGet (redactFieldName (f + 1) fn v opts rt σ).2 k := by
      intro fn v opts rt σ k
      show counterGet σ k ≤
        counterGet (if fn = "Name" ∨ fn = "name" then
          match v with
          | .str s =>
            if s ≠ "" ∧ isEntityName rt then
              ((Json.str (redactEntityName rt σ).1), (redactEntityName rt σ).2)
            else redactFieldCustom f fn v opts rt σ
          | _ => redactFieldCustom f fn v opts rt σ
        else redactFieldCustom f fn v opts rt σ).2 k
      split
      · cases v with
        | str s =>
          show counterGet σ k ≤ counterGet (if s ≠ "" ∧ isEntityName rt = true then
              ((Json.str (redactEntityName rt σ).1), (redactEntityName rt σ).2)
            else redactFieldCustom f fn (Json.str s) opts rt σ).2 k
          split
          · exact redactEntityName_mono rt σ k
          · exact ihFC fn _ opts rt σ k
        | obj fields => exact ihFC fn _ opts rt σ k
        | arr xs => exact ihFC fn _ opts rt σ k
        | num l => exact ihFC fn _ opts rt σ k
        | bool b => exact ihFC fn _ opts rt σ k
        | null => exact ihFC fn _ opts rt σ k
      · exact ihFC fn v opts rt σ k
    have hFV : ∀ fn v opts rt σ k,
        counterGet σ k ≤ counterGet (redactFieldValue (f + 1) fn v opts rt σ).2 k := by
      intro fn v opts rt σ k
      show counterGet σ k ≤
        counterGet (match getAssoc? sensitiveFieldPatterns fn, v with
          | some strategy, .str s =>
            if s ≠ "" then (Json.str (applyRedactionStrategy strategy s opts), σ)
            else redactFieldName f fn v opts rt σ
          | _, _ => redactFieldName f fn v opts rt σ).2 k
      rcases hg : getAssoc? sensitiveFieldPatterns fn with _ | strategy
      · cases v <;> exact ihFN fn _ opts rt σ k
      · cases v with
        | str s =>
          show counterGet σ k ≤ counterGet (if s ≠ "" then
              (Json.str (applyRedactionStrategy strategy s opts), σ)
            else redactFieldName f fn (Json.str s) opts rt σ).2 k
          split
          · exact Nat.le_refl _
          · exact ihFN fn _ opts rt σ k
        | obj fields => exact ihFN fn _ opts rt σ k
        | arr xs => exact ihFN fn _ opts rt σ k
        | num l => exact ihFN fn _ opts rt σ k
        | bool b => exact ihFN fn _ opts rt σ k
        | null => exact ihFN fn _ opts rt σ k
    exact ⟨hV, hE, hF, hFV, hFN, hFC⟩


theorem queryGet?_cons_hit (e : String × String) (q : List (String × String)) (k : String)
    (h : e.1 = k) : queryGet? (e :: q) k = some e.2 := by
  simp [queryGet?, List.find?, h]

theorem queryGet?_cons_skip (e : String × String) (q : List (String × String)) (k : String)
    (h : e.1 ≠ k) : queryGet? (e :: q) k = queryGet? q k := by
  have hb : (e.1 == k) = false := by simp [h]
  simp [queryGet?, List.find?, hb]

theorem queryGet?_filter_ne (q : List (String × String)) (k k' : String) (h : k' ≠ k) :
    queryGet? (q.filter (fun kv => kv.1 ≠ k)) k' = queryGet? q k' := by
  induction q with
  | nil => rfl
  | cons e rest ih =>
    by_cases hek : e.1 = k
    · rw [show (e :: rest).filter (fun kv => decide (kv.1 ≠ k)) = rest.filter (fun kv => decide (kv.1 ≠ k)) by
        simp [List.filter, hek]]
      rw [ih, queryGet?_cons_skip e rest k' (by rw [hek]; exact fun hh => h hh.symm)]
    · rw [show (e :: rest).filter (fun kv => decide (kv.1 ≠ k)) = e :: rest.filter (fun kv => decide (kv.1 ≠ k)) by
        simp [List.filter, hek]]
      by_cases hek' : e.1 = k'
      · rw [queryGet?_cons_hit _ _ _ hek', queryGet?_cons_hit _ _ _ hek']
      · rw [queryGet?_cons_skip _ _ _ hek', queryGet?_cons_skip _ _ _ hek', ih]

theorem queryGet?_mem_key (q : List (String × String)) (k : String) (v : String)
    (h : queryGet? q k = some v) : ∃ e ∈ q, e.1 = k ∧ e.2 = v := by
  unfold queryGet? at h
  cases hf : q.find? (fun kv => kv.1 == k) with
  | none => rw [hf] at h; exact absurd h (by simp)
  | some e =>
    rw [hf] at h
    simp at h
    refine ⟨e, List.mem_of_find?_eq_some hf, ?_, h⟩
    have := List.find?_some hf
    simpa using this

theorem captureQueryF_mem : ∀ (fuel : Nat) (q : List (String × String)) (kv : String × String),
    q.length < fuel → kv ∈ captureQueryF fuel q →
    (kv.1 ≠ "access_token" ∧ kv.1 ≠ "format") ∧ queryGet? q kv.1 = some kv.2 := by
  intro fuel
  induction fuel with
  | zero => intro q kv h; omega
  | succ f ih =>
    intro q kv hlen hmem
    cases q with
    | nil =>
      rw [show captureQueryF (f + 1) ([] : List (String × String)) = [] from rfl] at hmem
      exact absurd hmem (List.not_mem_nil kv)
    | cons e rest =>
      obtain ⟨k0, v0⟩ := e
      rw [show captureQueryF (f + 1) ((k0, v0) :: rest) =
          (if k0 = "access_token" || k0 = "format" then captureQueryF f rest
           else (k0, v0) :: captureQueryF f (rest.filter (fun kv => kv.1 ≠ k0))) from rfl] at hmem
      by_cases hex : k0 = "access_token" || k0 = "format"
      · rw [if_pos hex] at hmem
        have h := ih rest kv (by simp at hlen; omega) hmem
        refine ⟨h.1, ?_⟩
        rw [queryGet?_cons_skip (k0, v0) rest kv.1 ?hne]
        · exact h.2
        case hne =>
          show k0 ≠ kv.1
          rcases Bool.or_eq_true_iff.mp hex with h1 | h1 <;>
            · have hk0 := of_decide_eq_true h1
              intro hh
              rw [← hh] at h
              rcases h.1 with ⟨ha, hb⟩
              first
              | exact ha hk0
              | exact hb hk0
      · rw [if_neg hex] at hmem
        rcases List.mem_cons.mp hmem with heq | hmem2
        · subst heq
          have hne : ¬ (k0 = "access_token" ∨ k0 = "format") := by
            intro hh
            apply hex
            rcases hh with hh | hh <;> simp [hh]
          refine ⟨⟨fun hh => hne (Or.inl hh), fun hh => hne (Or.inr hh)⟩, ?_⟩
          exact queryGet?_cons_hit (k0, v0) rest k0 rfl
        · have hflen : (rest.filter (fun kv => kv.1 ≠ k0)).length < f := by
            have := List.length_filter_le (fun kv => decide (kv.1 ≠ k0)) rest
            simp only [List.length_cons] at hlen
            omega
          have h := ih _ kv hflen hmem2
          refine ⟨h.1, ?_⟩
          have hkey : ∃ e' ∈ rest.filter (fun kv => decide (kv.1 ≠ k0)), e'.1 = kv.1 ∧ e'.2 = kv.2 :=
            queryGet?_mem_key _ _ _ h.2
          rcases hkey with ⟨e', he'mem, he'k, _⟩
          have he'ne : e'.1 ≠ k0 := by
            have := List.of_mem_filter he'mem
            simpa using this
          have hne : kv.1 ≠ k0 := by rw [← he'k]; exact he'ne
          rw [queryGet?_cons_skip (k0, v0) rest kv.1 (fun hh => hne hh.symm)]
          rw [← queryGet?_filter_ne rest k0 kv.1 hne]
          exact h.2

theorem captureQuery_mem (q : List (String × String)) (kv : String × String)
    (h : kv ∈ captureQuery q) :
    (kv.1 ≠ "access_token" ∧ kv.1 ≠ "format") ∧ queryGet? q kv.1 = some kv.2 :=
  captureQueryF_mem (q.length + 1) q kv (by omega) h

theorem queryGet?_some_get (q : List (String × String)) (k v : String)
    (h : queryGet? q k = some v) : queryGet q k = v := by
  unfold queryGet
  unfold queryGet? at h
  cases hf : q.find? (fun kv => kv.1 == k) with
  | none => rw [hf] at h; exact absurd h (by simp)
  | some e =>
    rw [hf] at h
    simpa using h

/-- A captured request matches the request it was captured from. -/
theorem matchesReq_capture (req : IncomingRequest) :
    matchesReq req ⟨req.method, req.path, captureQuery req.query⟩ = true := by
  unfold matchesReq
  rw [if_neg (by simp), if_neg (by simp)]
  rw [List.all_eq_true]
  intro kv hkv
  have h := captureQuery_mem req.query kv hkv
  rw [queryGet?_some_get _ _ _ h.2]
  simp


/-- Full characterization of the captured query map: the token and format
parameters are never recorded, and every other key maps to its first value
in the incoming query. -/
theorem captureQueryF_lookup : ∀ (fuel : Nat) (q : List (String × String)) (k : String),
    q.length < fuel →
    queryGet? (captureQueryF fuel q) k =
      if k = "access_token" ∨ k = "format" then none else queryGet? q k := by
  intro fuel
  induction fuel with
  | zero => intro q k h; omega
  | succ f ih =>
    intro q k hlen
    cases q with
    | nil =>
      rw [show captureQueryF (f + 1) ([] : List (String × String)) = [] from rfl]
      by_cases hk : k = "access_token" ∨ k = "format"
      · rw [if_pos hk]
        rfl
      · rw [if_neg hk]
    | cons e rest =>
      obtain ⟨k0, v0⟩ := e
      rw [show captureQueryF (f + 1) ((k0, v0) :: rest) =
          (if k0 = "access_token" || k0 = "format" then captureQueryF f rest
           else (k0, v0) :: captureQueryF f (rest.filter (fun kv => kv.1 ≠ k0))) from rfl]
      simp only [List.length_cons] at hlen
      by_cases hex : k0 = "access_token" || k0 = "format"
      · rw [if_pos hex, ih rest k (by omega)]
        by_cases hk : k = "access_token" ∨ k = "format"
        · rw [if_pos hk, if_pos hk]
        · rw [if_neg hk, if_neg hk]
          have hk0 : k0 = "access_token" ∨ k0 = "format" := by
            rcases Bool.or_eq_true_iff.mp hex with h1 | h1
            · exact Or.inl (of_decide_eq_true h1)
            · exact Or.inr (of_decide_eq_true h1)
          have hne : k0 ≠ k := by
            intro hh
            subst hh
            exact hk hk0
          rw [queryGet?_cons_skip (k0, v0) rest k hne]
      · rw [if_neg hex]
        by_cases hk0 : k0 = k
        · subst hk0
          have hk : ¬ (k0 = "access_token" ∨ k0 = "format") := by
            intro hh
            apply hex
            rcases hh with hh | hh <;> simp [hh]
          rw [if_neg hk]
          rw [queryGet?_cons_hit (k0, v0) _ k0 rfl, queryGet?_cons_hit (k0, v0) rest k0 rfl]
        · rw [queryGet?_cons_skip (k0, v0) _ k hk0]
          have hflen : (rest.filter (fun kv => kv.1 ≠ k0)).length < f := by
            have := List.length_filter_le (fun kv => decide (kv.1 ≠ k0)) rest
            omega
          rw [ih _ k hflen]
          by_cases hk : k = "access_token" ∨ k = "format"
          · rw [if_pos hk, if_pos hk]
          · rw [if_neg hk, if_neg hk]
            rw [queryGet?_filter_ne rest k0 k (fun hh => hk0 hh.symm)]
            rw [queryGet?_cons_skip (k0, v0) rest k hk0]

theorem captureQuery_lookup (q : List (String × String)) (k : String) :
    queryGet? (captureQuery q) k =
      if k = "access_token" ∨ k = "format" then none else queryGet? q k :=
  captureQueryF_lookup (q.length + 1) q k (by omega)

/-- Looking a key up after a value-wise map rewrites the value and nothing
else. -/
theorem queryGet?_map (f : String → String → String) (q : List (String × String)) (k : String) :
    queryGet? (q.map (fun kv => (kv.1, f kv.1 kv.2))) k = (queryGet? q k).map (f k) := by
  induction q with
  | nil => rfl
  | cons e rest ih =>
    by_cases he : e.1 = k
    · simp only [List.map_cons]
      rw [queryGet?_cons_hit e rest k he,
          queryGet?_cons_hit (e.1, f e.1 e.2) (rest.map (fun kv => (kv.1, f kv.1 kv.2))) k he]
      rw [he]
      rfl
    · simp only [List.map_cons]
      rw [queryGet?_cons_skip e rest k he,
          queryGet?_cons_skip (e.1, f e.1 e.2) (rest.map (fun kv => (kv.1, f kv.1 kv.2))) k he]
      exact ih


theorem list_map_id {α : Type} (l : List α) (f : α → α) (h : ∀ x ∈ l, f x = x) :
    l.map f = l := by
  induction l with
  | nil => rfl
  | cons x rest ih =>
    rw [List.map_cons, h x (List.mem_cons_self x rest),
        ih (fun y hy => h y (List.mem_cons_of_mem x hy))]

/-- C9: a transport error or a body-read error is propagated and records
nothing; every erroring call leaves the pairs accumulator untouched. -/
theorem claim_C9_error_propagation :
    (∀ (pairs : List Pair) (req : IncomingRequest) (e : String),
        roundTrip pairs req (.error e) = (.error e, pairs)) ∧
    (∀ (pairs : List Pair) (req : IncomingRequest) (status : Nat)
        (hdrs : List (String × String)) (e : String),
        roundTrip pairs req (.ok ⟨status, hdrs, .error e⟩) = (.error e, pairs)) ∧
    (∀ (pairs : List Pair) (req : IncomingRequest) (base : Except String BaseResponse)
        (e : String),
        (roundTrip pairs req base).1 = .error e → (roundTrip pairs req base).2 = pairs) := by
  refine ⟨fun pairs req e => rfl, fun pairs req status hdrs e => rfl, ?_⟩
  intro pairs req base e h
  match base with
  | .error e' => rfl
  | .ok ⟨status, hdrs, .error e'⟩ => rfl
  | .ok ⟨status, hdrs, .ok body⟩ => exact absurd h (by simp [roundTrip])

/-- C9 witness: the error propagation applied at a concrete erroring call. -/
theorem claim_C9_witness :
    (roundTrip [] ⟨"GET", "/x", []⟩ (.ok ⟨200, [], .error "read failed"⟩)).2 = [] := by
  have h := claim_C9_error_propagation.2.2 [] ⟨"GET", "/x", []⟩
    (.ok ⟨200, [], .error "read failed"⟩) "read failed"
  exact h rfl

/-- C2 counterexample: a fixture expecting the empty string for key `k`
matches a request that does not carry `k` at all, because `url.Values.Get`
returns `""` for an absent key — contradicting the claim's "the incoming
request carries that key". -/
theorem claim_C2_counterexample :
    matchesReq ⟨"GET", "/api", []⟩ ⟨"GET", "/api", [("k", "")]⟩ = true ∧
    ¬ specClaimMatch ⟨"GET", "/api", []⟩ ⟨"GET", "/api", [("k", "")]⟩ := by
  constructor
  · rfl
  · intro h
    have := h.2.2 ("k", "") (by simp)
    simp [queryGet?, List.find?] at this

/-- C2 (amended): a request matches iff methods and paths are equal and,
for every key the fixture constrains, the request's first value for that
key — the empty string when the key is absent — equals the fixture's
value; keys the fixture does not list cannot influence the outcome. -/
theorem claim_C2_match_rule (r : IncomingRequest) (sim : Request) :
    matchesReq r sim = true ↔
      (r.method = sim.method ∧ r.path = sim.path ∧
        ∀ kv ∈ sim.query, queryGet r.query kv.1 = kv.2) := by
  unfold matchesReq
  by_cases hm : r.method = sim.method
  · rw [if_neg (not_not_intro hm)]
    by_cases hp : r.path = sim.path
    · rw [if_neg (not_not_intro hp)]
      rw [List.all_eq_true]
      constructor
      · intro h
        refine ⟨hm, hp, fun kv hkv => ?_⟩
        have := h kv hkv
        simpa using this
      · intro h kv hkv
        rw [h.2.2 kv hkv]
        simp
    · rw [if_pos hp]
      constructor
      · intro h
        exact absurd h (by simp)
      · intro hh
        exact absurd hh.2.1 hp
  · rw [if_pos hm]
    constructor
    · intro h
      exact absurd h (by simp)
    · intro hh
      exact absurd hh.1 hm

/-- C5 counterexample: a matching pair with `Status` zero is served with
status 200, so the served response is not "exactly that of the first
matching pair". -/
theorem claim_C5_counterexample :
    matchesReq ⟨"GET", "/a", []⟩
        (⟨"", ⟨"GET", "/a", []⟩, ⟨0, [], "\x7b\x7d"⟩⟩ : Pair).request = true ∧
    (handler ⟨[⟨"", ⟨"GET", "/a", []⟩, ⟨0, [], "\x7b\x7d"⟩⟩]⟩ ⟨"GET", "/a", []⟩).status = 200 ∧
    (⟨"", ⟨"GET", "/a", []⟩, ⟨0, [], "\x7b\x7d"⟩⟩ : Pair).response.status = 0 := by
  exact ⟨rfl, rfl, rfl⟩

/-- C5 (amended): the first matching pair alone determines the served
response (its headers with the Content-Type default, its status with the
200-for-zero default, its unwrapped body bytes); pairs after the first
match have no effect. -/
theorem claim_C5_first_match (pre post post' : List Pair) (p : Pair) (r : IncomingRequest)
    (hpre : ∀ q ∈ pre, matchesReq r q.request = false)
    (hp : matchesReq r p.request = true) :
    handler ⟨pre ++ p :: post⟩ r = serveOf p ∧
    handler ⟨pre ++ p :: post⟩ r = handler ⟨pre ++ p :: post'⟩ r := by
  have hfind : ∀ post'' : List Pair,
      (pre ++ p :: post'').find? (fun q => matchesReq r q.request) = some p := by
    intro post''
    rw [List.find?_append]
    rw [List.find?_eq_none.mpr (fun q hq => by rw [hpre q hq]; exact Bool.false_ne_true)]
    rw [@List.find?_cons_of_pos _ (fun q => matchesReq r q.request) p post'' hp]
    rfl
  constructor
  · show (match (pre ++ p :: post).find? (fun q => matchesReq r q.request) with
          | some q => serveOf q
          | none => notFoundResponse r) = serveOf p
    rw [hfind post]
  · show (match (pre ++ p :: post).find? (fun q => matchesReq r q.request) with
          | some q => serveOf q
          | none => notFoundResponse r) =
        (match (pre ++ p :: post').find? (fun q => matchesReq r q.request) with
          | some q => serveOf q
          | none => notFoundResponse r)
    rw [hfind post, hfind post']

/-- C5 witness: first-match selection at a concrete two-pair simulation. -/
theorem claim_C5_witness :
    handler ⟨[⟨"", ⟨"GET", "/a", []⟩, ⟨201, [], "\x7b\x7d"⟩⟩,
              ⟨"", ⟨"GET", "/a", []⟩, ⟨500, [], "\x7b\x7d"⟩⟩]⟩ ⟨"GET", "/a", []⟩ =
      serveOf ⟨"", ⟨"GET", "/a", []⟩, ⟨201, [], "\x7b\x7d"⟩⟩ := by
  have h := claim_C5_first_match [] [⟨"", ⟨"GET", "/a", []⟩, ⟨500, [], "\x7b\x7d"⟩⟩] []
    ⟨"", ⟨"GET", "/a", []⟩, ⟨201, [], "\x7b\x7d"⟩⟩ ⟨"GET", "/a", []⟩
    (fun q hq => absurd hq (List.not_mem_nil q)) rfl
  exact h.1


/-- C6 counterexample: a payload whose `Content-Type` claims json but whose
bytes are not JSON is stored raw, so the recorded pair's `Body` is not a
syntactically valid JSON document. -/
theorem claim_C6_counterexample :
    ((roundTrip [] ⟨"GET", "/meta", []⟩
        (.ok ⟨200, [("Content-Type", "application/json")], .ok "hello"⟩)).2.map
      (fun p => jsonWellFormed p.response.body)) = [false] := rfl

/-- C6 (amended): the stored `Body` is well-formed JSON provided every
payload taking the raw branch (json `Content-Type`, or bytes sniffing as
`{`/`[`) is itself well-formed; the string-wrapping branch yields a valid
JSON string literal unconditionally. -/
theorem claim_C6_body_wellformed (contentType respBody : String)
    (h : (strContains contentType "json" || isJSONBytes respBody) = true →
      jsonWellFormed respBody = true) :
    jsonWellFormed (storeBody contentType respBody) = true := by
  unfold storeBody
  by_cases hb : (strContains contentType "json" || isJSONBytes respBody) = true
  · rw [if_pos hb]
    exact h hb
  · rw [if_neg hb]
    exact jsonWellFormed_goQuote respBody

/-- C6 witness: a non-JSON payload with a non-json content type is stored
as a valid JSON string literal. -/
theorem claim_C6_witness : jsonWellFormed (storeBody "text/xml" "<a/>") = true :=
  claim_C6_body_wellformed "text/xml" "<a/>" (fun h => absurd h (by decide))

/-- C3 (code bug): a captured non-JSON payload is stored as a JSON string
literal, which is itself valid JSON, so `redactBody`'s parse succeeds and
the payload takes the generic string path — `redactXMLContent` is never
reached and `Description="..."` attribute content survives redaction
verbatim, although the transform the specification requires (present in
the source but unreachable) would rewrite it. -/
theorem claim_C3_description_not_redacted :
    (redactBody (goQuote "<Entity Description=\"top secret\"/>")
        (defaultRedactOptions "myco.tpondemand.com") []).1 =
      goQuote "<Entity Description=\"top secret\"/>" ∧
    redactXMLContent "<Entity Description=\"top secret\"/>" =
      "<Entity Description=\"Redacted description\"/>" ∧
    ("<Entity Description=\"Redacted description\"/>" : String) ≠
      "<Entity Description=\"top secret\"/>" := by
  refine ⟨rfl, rfl, by decide⟩

/-- The branch of `redactBody` that would apply `redactXMLContent` is
unreachable: bytes that fail to parse as JSON also fail to parse as a JSON
string, and pass through unmodified. -/
theorem redactBody_unparsable_id (body : String) (opts : RedactOptions) (σ : Counters)
    (h : parseJson body = none) : redactBody body opts σ = (body, σ) := by
  unfold redactBody
  rw [h]
  rw [show unmarshalString body = none by unfold unmarshalString; rw [h]]

/-- C10: capture records, for every key it keeps, exactly the first value
of that key in the incoming query; and matching is insensitive to a
repeated value appended for a key that is already present, because only
the first value of each incoming parameter is compared. -/
theorem claim_C10_first_value_only :
    (∀ (q : List (String × String)) (k : String),
        queryGet? (captureQuery q) k =
          if k = "access_token" ∨ k = "format" then none else queryGet? q k) ∧
    (∀ (m p : String) (q : List (String × String)) (k v : String) (sim : Request),
        (queryGet? q k).isSome = true →
        matchesReq ⟨m, p, q ++ [(k, v)]⟩ sim = matchesReq ⟨m, p, q⟩ sim) := by
  refine ⟨captureQuery_lookup, ?_⟩
  intro m p q k v sim h
  have hget : ∀ k', queryGet (q ++ [(k, v)]) k' = queryGet q k' := by
    intro k'
    unfold queryGet
    rw [List.find?_append]
    cases hf : q.find? (fun kv => kv.1 == k') with
    | some e => rfl
    | none =>
      by_cases hk : k = k'
      · subst hk
        unfold queryGet? at h
        rw [hf] at h
        exact absurd h (by simp)
      · have hb : ((k, v).1 == k') = false := by simp [hk]
        simp [List.find?, hb]
  unfold matchesReq
  show (if m ≠ sim.method then false
        else if p ≠ sim.path then false
        else sim.query.all fun kv => queryGet (q ++ [(k, v)]) kv.1 == kv.2) =
      (if m ≠ sim.method then false
        else if p ≠ sim.path then false
        else sim.query.all fun kv => queryGet q kv.1 == kv.2)
  have hall : sim.query.all (fun kv => queryGet (q ++ [(k, v)]) kv.1 == kv.2) =
      sim.query.all (fun kv => queryGet q kv.1 == kv.2) :=
    congrArg sim.query.all (funext (fun kv => by rw [hget kv.1]))
  rw [hall]

/-- C10 witness: the characterization applied at concrete values. -/
theorem claim_C10_witness :
    matchesReq ⟨"GET", "/a", [("take", "3"), ("take", "5")]⟩ ⟨"GET", "/a", [("take", "3")]⟩ =
      matchesReq ⟨"GET", "/a", [("take", "3")]⟩ ⟨"GET", "/a", [("take", "3")]⟩ :=
  claim_C10_first_value_only.2 "GET" "/a" [("take", "3")] "take" "5"
    ⟨"GET", "/a", [("take", "3")]⟩ rfl


/-- C7 counterexample: an object tagged `EntityState` does not keep its
`Name` verbatim — the name still passes through generic string redaction,
which rewrites an email-shaped name. -/
theorem claim_C7_counterexample :
    (redactBody "\x7b\"ResourceType\":\"EntityState\",\"Name\":\"a@b.co\"\x7d"
        (defaultRedactOptions "myco.tpondemand.com") []).1 =
      "\x7b\"Name\":\"testuser@example.com\",\"ResourceType\":\"EntityState\"\x7d" ∧
    ("testuser@example.com" : String) ≠ "a@b.co" := by
  refine ⟨rfl, by decide⟩

/-- C7 (amended): a non-empty string `Name` is anonymized to the
counter placeholder exactly when the resource type is outside the
six-type allow-list; for the six allow-listed types the name is not
anonymized but still passes through generic string redaction (domain
substitution and email masking), so it is kept verbatim only when that
redaction leaves it unchanged. -/
theorem claim_C7_name_rule :
    (∀ (fuel : Nat) (s : String) (opts : RedactOptions) (rt : String) (σ : Counters),
        s ≠ "" →
        redactFieldValue (fuel + 4) "Name" (.str s) opts rt σ =
          if isEntityName rt then
            (.str (redactEntityName rt σ).1, (redactEntityName rt σ).2)
          else (.str (redactString s opts), σ)) ∧
    (∀ rt : String, isEntityName rt = false ↔
        rt ∈ (["EntityState", "EntityType", "Priority", "Role", "Process",
               "Workflow"] : List String)) := by
  constructor
  · intro fuel s opts rt σ hs
    by_cases he : isEntityName rt
    · rw [if_pos he]
      show (if s ≠ "" ∧ isEntityName rt = true then
              ((Json.str (redactEntityName rt σ).1), (redactEntityName rt σ).2)
            else redactFieldCustom (fuel + 2) "Name" (.str s) opts rt σ) = _
      rw [if_pos ⟨hs, he⟩]
    · rw [if_neg he]
      show (if s ≠ "" ∧ isEntityName rt = true then
              ((Json.str (redactEntityName rt σ).1), (redactEntityName rt σ).2)
            else redactFieldCustom (fuel + 2) "Name" (.str s) opts rt σ) = _
      rw [if_neg (fun hh => he hh.2)]
      rfl
  · intro rt
    constructor
    · intro h
      by_cases h1 : rt = "EntityState"
      · simp [h1]
      by_cases h2 : rt = "EntityType"
      · simp [h2]
      by_cases h3 : rt = "Priority"
      · simp [h3]
      by_cases h4 : rt = "Role"
      · simp [h4]
      by_cases h5 : rt = "Process"
      · simp [h5]
      by_cases h6 : rt = "Workflow"
      · simp [h6]
      exfalso
      have e1 : (("EntityState" : String) == rt) = false := by
        simp only [beq_eq_false_iff_ne, ne_eq]
        exact fun hh => h1 hh.symm
      have e2 : (("EntityType" : String) == rt) = false := by
        simp only [beq_eq_false_iff_ne, ne_eq]
        exact fun hh => h2 hh.symm
      have e3 : (("Priority" : String) == rt) = false := by
        simp only [beq_eq_false_iff_ne, ne_eq]
        exact fun hh => h3 hh.symm
      have e4 : (("Role" : String) == rt) = false := by
        simp only [beq_eq_false_iff_ne, ne_eq]
        exact fun hh => h4 hh.symm
      have e5 : (("Process" : String) == rt) = false := by
        simp only [beq_eq_false_iff_ne, ne_eq]
        exact fun hh => h5 hh.symm
      have e6 : (("Workflow" : String) == rt) = false := by
        simp only [beq_eq_false_iff_ne, ne_eq]
        exact fun hh => h6 hh.symm
      have ht : isEntityName rt = true := by
        unfold isEntityName getAssoc? preserveTypes
        simp [List.find?, e1, e2, e3, e4, e5, e6]
      rw [ht] at h
      exact absurd h (by simp)
    · intro h
      simp only [List.mem_cons, List.not_mem_nil, or_false] at h
      rcases h with rfl | rfl | rfl | rfl | rfl | rfl <;> rfl

/-- C7 witness: the rule applied at concrete inputs — a `Project` name is
anonymized, and `EntityState` is on the allow-list. -/
theorem claim_C7_witness :
    redactFieldValue 4 "Name" (.str "Secret Roadmap") (defaultRedactOptions "d") "Project" [] =
      (.str "Test Project 1", [("Project", 1)]) ∧
    (isEntityName "EntityState" = false ↔
      "EntityState" ∈ (["EntityState", "EntityType", "Priority", "Role", "Process",
                        "Workflow"] : List String)) := by
  constructor
  · exact (claim_C7_name_rule.1 0 "Secret Roadmap" (defaultRedactOptions "d") "Project" []
      (by decide)).trans rfl
  · exact claim_C7_name_rule.2 "EntityState"

/-- C8: anonymizing a `Name` bumps the per-type counter by exactly one;
no step of the redaction recursion ever decreases a counter; and two
anonymizations of the same resource type at any two points of a run —
the second state dominating the first call's — yield distinct
placeholder names. -/
theorem claim_C8_distinct_placeholders :
    (∀ (rt : String) (σ : Counters),
        counterGet (redactEntityName rt σ).2 (if rt = "" then "Entity" else rt) =
          counterGet σ (if rt = "" then "Entity" else rt) + 1) ∧
    (∀ (fuel : Nat) (v : Json) (opts : RedactOptions) (σ : Counters) (k : String),
        counterGet σ k ≤ counterGet (redactValue fuel v opts σ).2 k) ∧
    (∀ (rt : String) (σ σ' : Counters),
        counterGet (redactEntityName rt σ).2 (if rt = "" then "Entity" else rt) ≤
          counterGet σ' (if rt = "" then "Entity" else rt) →
        (redactEntityName rt σ).1 ≠ (redactEntityName rt σ').1) := by
  refine ⟨redactEntityName_counter, fun fuel => (redact_counters_mono fuel).1, ?_⟩
  intro rt σ σ' h
  show ("Test " ++ (if rt = "" then "Entity" else rt) ++ " " ++
          natToString (counterGet σ (if rt = "" then "Entity" else rt) + 1)) ≠
       ("Test " ++ (if rt = "" then "Entity" else rt) ++ " " ++
          natToString (counterGet σ' (if rt = "" then "Entity" else rt) + 1))
  apply placeholder_ne
  rw [redactEntityName_counter rt σ] at h
  omega

/-- C8 witness: two successive `UserStory` anonymizations give
"Test UserStory 1" and then a distinct "Test UserStory 2". -/
theorem claim_C8_witness :
    (redactEntityName "UserStory" []).1 ≠
      (redactEntityName "UserStory" (redactEntityName "UserStory" []).2).1 :=
  claim_C8_distinct_placeholders.2.2 "UserStory" [] (redactEntityName "UserStory" []).2
    (by decide)


/-- C4 counterexample: a token value echoed inside a response body
survives redaction — the serialized fixture still contains it (the
access-token query parameter itself is excluded at capture, but no body
rule scrubs the token string). -/
theorem claim_C4_counterexample :
    ((redactSimulation
        ⟨(roundTrip [] ⟨"GET", "/api", [("access_token", "SECRETTOKEN123")]⟩
            (.ok ⟨200, [("Content-Type", "application/json")],
                  .ok "\x7b\"note\":\"SECRETTOKEN123\"\x7d"⟩)).2⟩
        (defaultRedactOptions "myco.tpondemand.com") []).1.pairs.map
      (fun p => strContains p.response.body "SECRETTOKEN123")) = [true] := rfl

/-- C4 (amended): capture never records the access-token (or format)
query parameter; redaction maps every query value to "REDACTED" for an
`access_token` key and to its domain substitution otherwise, and every
header value to its domain substitution.  Token or domain occurrences
inside response bodies are not covered by these guarantees. -/
theorem claim_C4_token_domain :
    (∀ (q : List (String × String)) (kv : String × String), kv ∈ captureQuery q →
        kv.1 ≠ "access_token" ∧ kv.1 ≠ "format") ∧
    (∀ (p : Pair) (opts : RedactOptions) (σ : Counters) (k : String),
        queryGet? ((redactPair p opts σ).1.request.query) k =
          (queryGet? p.request.query k).map
            (fun v => if k = "access_token" then "REDACTED" else replaceDomain v opts)) ∧
    (∀ (p : Pair) (opts : RedactOptions) (σ : Counters) (k : String),
        queryGet? ((redactPair p opts σ).1.response.headers) k =
          (queryGet? p.response.headers k).map (fun v => replaceDomain v opts)) := by
  refine ⟨fun q kv h => (captureQuery_mem q kv h).1, ?_, ?_⟩
  · intro p opts σ k
    show queryGet? (p.request.query.map
        (fun kv => (kv.1, if kv.1 = "access_token" then "REDACTED" else replaceDomain kv.2 opts))) k = _
    rw [queryGet?_map (fun k' v => if k' = "access_token" then "REDACTED" else replaceDomain v opts)
      p.request.query k]
  · intro p opts σ k
    show queryGet? (p.response.headers.map (fun kv => (kv.1, replaceDomain kv.2 opts))) k = _
    rw [queryGet?_map (fun _ v => replaceDomain v opts) p.response.headers k]

/-- C4 witness: the guarantees applied at concrete inputs. -/
theorem claim_C4_witness :
    ((("take", "3") : String × String).1 ≠ "access_token" ∧
      (("take", "3") : String × String).1 ≠ "format") ∧
    queryGet? ((redactPair ⟨"", ⟨"GET", "/a", [("access_token", "tok")]⟩, ⟨200, [], "\x7b\x7d"⟩⟩
        (defaultRedactOptions "d") []).1.request.query) "access_token" =
      some "REDACTED" := by
  constructor
  · exact claim_C4_token_domain.1 [("take", "3"), ("access_token", "s")] ("take", "3")
      (by decide)
  · rw [claim_C4_token_domain.2.1 ⟨"", ⟨"GET", "/a", [("access_token", "tok")]⟩, ⟨200, [], "\x7b\x7d"⟩⟩
      (defaultRedactOptions "d") [] "access_token"]
    rfl


/-- C1 counterexample: an exchange whose body carries a `Description`
field is rewritten by redaction, so the full capture → redact → save →
load → serve chain returns different body bytes than the original
response for the exact original request. -/
theorem claim_C1_counterexample :
    ((saveLoadSimulation
        (redactSimulation
          ⟨(roundTrip [] ⟨"GET", "/api/v1/Projects", [("take", "3")]⟩
              (.ok ⟨200, [("Content-Type", "application/json")],
                    .ok "\x7b\"Description\":\"hello\"\x7d"⟩)).2⟩
          (defaultRedactOptions "myco.tpondemand.com") []).1).map
      (fun sim' => (handler sim' ⟨"GET", "/api/v1/Projects", [("take", "3")]⟩).body)) =
      some "\x7b\"Description\":\"Redacted text\"\x7d" ∧
    ("\x7b\"Description\":\"Redacted text\"\x7d" : String) ≠ "\x7b\"Description\":\"hello\"\x7d" := by
  refine ⟨rfl, by decide⟩

theorem handler_single (p : Pair) (r : IncomingRequest)
    (h : matchesReq r p.request = true) : handler ⟨[p]⟩ r = serveOf p := by
  show (match [p].find? (fun q => matchesReq r q.request) with
        | some q => serveOf q
        | none => notFoundResponse r) = serveOf p
  rw [@List.find?_cons_of_pos _ (fun q => matchesReq r q.request) p [] h]

theorem serveOf_status (p : Pair) (h : p.response.status ≠ 0) :
    (serveOf p).status = p.response.status := by
  show (if p.response.status = 0 then 200 else p.response.status) = p.response.status
  rw [if_neg h]

/-- C1 (amended): for an exchange stored through the string-wrapping
branch whose payload and captured query values are fixed points of
redaction, saving and loading the redacted single-pair simulation and
serving it to the exact original request reproduces the original status
and body bytes. -/
theorem claim_C1_roundtrip
    (req : IncomingRequest) (status : Nat) (hdrs : List (String × String))
    (respBody : String) (opts : RedactOptions)
    (hstore : (strContains (queryGet hdrs "Content-Type") "json" || isJSONBytes respBody) = false)
    (hred : redactString respBody opts = respBody)
    (hq : ∀ kv ∈ captureQuery req.query, replaceDomain kv.2 opts = kv.2)
    (hstatus : status ≠ 0) :
    ∃ sim' : Simulation,
      saveLoadSimulation
          (redactSimulation ⟨(roundTrip [] req (.ok ⟨status, hdrs, .ok respBody⟩)).2⟩
            opts []).1 =
        some sim' ∧
      (handler sim' req).status = status ∧
      (handler sim' req).body = respBody := by
  have h1 : (roundTrip [] req (.ok ⟨status, hdrs, .ok respBody⟩)).2 =
      [⟨"", ⟨req.method, req.path, captureQuery req.query⟩,
        ⟨status, captureHeaders hdrs, goQuote respBody⟩⟩] := by
    show [] ++ [(⟨"", ⟨req.method, req.path, captureQuery req.query⟩,
        ⟨status, captureHeaders hdrs,
          storeBody (queryGet hdrs "Content-Type") respBody⟩⟩ : Pair)] =
      [⟨"", ⟨req.method, req.path, captureQuery req.query⟩,
        ⟨status, captureHeaders hdrs, goQuote respBody⟩⟩]
    rw [show storeBody (queryGet hdrs "Content-Type") respBody = goQuote respBody by
      unfold storeBody
      rw [if_neg (by rw [hstore]; simp)]]
    rw [List.nil_append]
  have hbody : redactBody (goQuote respBody) opts [] = (goQuote respBody, []) := by
    unfold redactBody
    rw [parseJson_goQuote]
    show (renderJson ((goQuote respBody).data.length + 2) (Json.str (redactString respBody opts)),
          ([] : Counters)) = _
    rw [hred]
    rw [show renderJson ((goQuote respBody).data.length + 2) (Json.str respBody) =
        goQuote respBody from renderJson_str ((goQuote respBody).data.length + 1) respBody]
  have hquery : (captureQuery req.query).map
      (fun kv => (kv.1, if kv.1 = "access_token" then "REDACTED" else replaceDomain kv.2 opts)) =
      captureQuery req.query := by
    apply list_map_id
    intro kv hkv
    rw [if_neg (captureQuery_mem req.query kv hkv).1.1, hq kv hkv]
  have h3 : (redactPair ⟨"", ⟨req.method, req.path, captureQuery req.query⟩,
      ⟨status, captureHeaders hdrs, goQuote respBody⟩⟩ opts []).1 =
      ⟨"", ⟨req.method, req.path, captureQuery req.query⟩,
        ⟨status, (captureHeaders hdrs).map (fun kv => (kv.1, replaceDomain kv.2 opts)),
          goQuote respBody⟩⟩ := by
    show (⟨"", ⟨req.method, req.path, (captureQuery req.query).map
        (fun kv : String × String =>
          (kv.1, if kv.1 = "access_token" then "REDACTED" else replaceDomain kv.2 opts))⟩,
      ⟨status, (captureHeaders hdrs).map
          (fun kv : String × String => (kv.1, replaceDomain kv.2 opts)),
        (redactBody (goQuote respBody) opts []).1⟩⟩ : Pair) =
      ⟨"", ⟨req.method, req.path, captureQuery req.query⟩,
        ⟨status, (captureHeaders hdrs).map (fun kv => (kv.1, replaceDomain kv.2 opts)),
          goQuote respBody⟩⟩
    rw [hquery, hbody]
  have hslp : saveLoadPair ⟨"", ⟨req.method, req.path, captureQuery req.query⟩,
      ⟨status, (captureHeaders hdrs).map (fun kv => (kv.1, replaceDomain kv.2 opts)),
        goQuote respBody⟩⟩ =
      some ⟨"", ⟨req.method, req.path, captureQuery req.query⟩,
        ⟨status, (captureHeaders hdrs).map (fun kv => (kv.1, replaceDomain kv.2 opts)),
          goQuote respBody⟩⟩ := by
    unfold saveLoadPair
    rw [show (⟨"", ⟨req.method, req.path, captureQuery req.query⟩,
        ⟨status, (captureHeaders hdrs).map (fun kv => (kv.1, replaceDomain kv.2 opts)),
          goQuote respBody⟩⟩ : Pair).response.body = goQuote respBody from rfl]
    rw [parseJson_goQuote]
    show some (⟨"", ⟨req.method, req.path, captureQuery req.query⟩,
        ⟨status, (captureHeaders hdrs).map (fun kv => (kv.1, replaceDomain kv.2 opts)),
          renderJson ((goQuote respBody).data.length + 2) (Json.str respBody)⟩⟩ : Pair) = _
    rw [show renderJson ((goQuote respBody).data.length + 2) (Json.str respBody) =
        goQuote respBody from renderJson_str ((goQuote respBody).data.length + 1) respBody]
  refine ⟨⟨[⟨"", ⟨req.method, req.path, captureQuery req.query⟩,
      ⟨status, (captureHeaders hdrs).map (fun kv => (kv.1, replaceDomain kv.2 opts)),
        goQuote respBody⟩⟩]⟩, ?_, ?_, ?_⟩
  · rw [h1]
    show (saveLoadPairs [(redactPair ⟨"", ⟨req.method, req.path, captureQuery req.query⟩,
        ⟨status, captureHeaders hdrs, goQuote respBody⟩⟩ opts []).1]).map Simulation.mk = _
    rw [h3]
    show (match saveLoadPair ⟨"", ⟨req.method, req.path, captureQuery req.query⟩,
        ⟨status, (captureHeaders hdrs).map
            (fun kv : String × String => (kv.1, replaceDomain kv.2 opts)),
          goQuote respBody⟩⟩, (some [] : Option (List Pair)) with
      | some p', some rest' => some (p' :: rest')
      | _, _ => none).map Simulation.mk = _
    rw [hslp]
    rfl
  · rw [handler_single _ req (matchesReq_capture req)]
    exact serveOf_status _ hstatus
  · rw [handler_single _ req (matchesReq_capture req)]
    show bodyBytes ⟨status, (captureHeaders hdrs).map (fun kv => (kv.1, replaceDomain kv.2 opts)),
      goQuote respBody⟩ = respBody
    exact bodyBytes_goQuote _ _ respBody

/-- C1 witness: the round trip at a concrete XML exchange. -/
theorem claim_C1_witness :
    ∃ sim' : Simulation,
      saveLoadSimulation
          (redactSimulation
            ⟨(roundTrip [] ⟨"GET", "/api/v1/Context", [("ids", "7")]⟩
                (.ok ⟨200, [("Content-Type", "text/xml")], .ok "<Context Id=\"7\"/>"⟩)).2⟩
            (defaultRedactOptions "myco.tpondemand.com") []).1 =
        some sim' ∧
      (handler sim' ⟨"GET", "/api/v1/Context", [("ids", "7")]⟩).status = 200 ∧
      (handler sim' ⟨"GET", "/api/v1/Context", [("ids", "7")]⟩).body = "<Context Id=\"7\"/>" :=
  claim_C1_roundtrip ⟨"GET", "/api/v1/Context", [("ids", "7")]⟩ 200
    [("Content-Type", "text/xml")] "<Context Id=\"7\"/>"
    (defaultRedactOptions "myco.tpondemand.com")
    (by decide) (by decide) (by decide) (by decide)

end TP
